import Mathlib

/-!
Verification development for the visual-search-nets repository.

The two core components are embedded shallowly:
* `searchnets/utils/metrics.py` — signal-detection metrics (`compute_d_prime`,
  `acc_grid`, `err_grid`).  Numpy floating-point values are modelled by `Fl`,
  rationals extended with signed infinities and NaN, with numpy's division
  semantics (division by zero yields an infinity or NaN together with a
  runtime warning, never an exception).  The standard-normal quantile
  `scipy.stats.norm.ppf` is an external numeric routine; its finite part is a
  parameter `ppf : ℚ → ℚ` of the model, wrapped by `z_score` which reproduces
  scipy's behaviour at 0, 1 and outside [0, 1].
* `searchnets/data.py` — the dataset partitioner, embedded as a function of
  the manifest, the size arguments and an explicit pseudo-random stream
  modelling the global `random` module state consumed by `random.shuffle`.
-/

deriving instance DecidableEq for Except

namespace SearchNets

/-- Model of a numpy double: a finite rational, a signed infinity, or NaN. -/
inductive Fl where
  | fin (q : ℚ)
  | posinf
  | neginf
  | nan
deriving DecidableEq

namespace Fl

/-- Numpy true division: finite/finite is exact; x/0 is ±inf for x ≠ 0 and
NaN for 0/0 (a runtime warning in numpy, not an exception). -/
def div : Fl → Fl → Fl
  | fin a, fin b =>
      if b ≠ 0 then fin (a / b)
      else if a > 0 then posinf
      else if a < 0 then neginf
      else nan
  | fin _, posinf => fin 0
  | fin _, neginf => fin 0
  | posinf, fin b => if b ≥ 0 then posinf else neginf
  | neginf, fin b => if b ≥ 0 then neginf else posinf
  | _, _ => nan

/-- Numpy subtraction on extended values; NaN is absorbing and
inf − inf is NaN. -/
def sub : Fl → Fl → Fl
  | nan, _ => nan
  | _, nan => nan
  | fin a, fin b => fin (a - b)
  | fin _, posinf => neginf
  | fin _, neginf => posinf
  | posinf, fin _ => posinf
  | posinf, posinf => nan
  | posinf, neginf => posinf
  | neginf, fin _ => neginf
  | neginf, posinf => neginf
  | neginf, neginf => nan

end Fl

/-- Count of samples with `y_pred == 1` and `y_true == 1`
(`np.logical_and(y_pred == 1, y_true == 1).sum()`). -/
def hits (y_true y_pred : List ℤ) : ℕ :=
  (y_pred.zip y_true).countP (fun p => p.1 == 1 && p.2 == 1)

/-- Count of samples with `y_pred == 0` and `y_true == 1`. -/
def misses (y_true y_pred : List ℤ) : ℕ :=
  (y_pred.zip y_true).countP (fun p => p.1 == 0 && p.2 == 1)

/-- Count of samples with `y_pred == 1` and `y_true == 0`. -/
def false_alarms (y_true y_pred : List ℤ) : ℕ :=
  (y_pred.zip y_true).countP (fun p => p.1 == 1 && p.2 == 0)

/-- Count of samples with `y_pred == 0` and `y_true == 0`. -/
def correct_rejects (y_true y_pred : List ℤ) : ℕ :=
  (y_pred.zip y_true).countP (fun p => p.1 == 0 && p.2 == 0)

/-- Model of `scipy.stats.norm.ppf`: finite on (0,1) with abstract finite
values `ppf q`, −inf at 0, +inf at 1, NaN outside [0,1] and at non-finite
arguments. -/
def z_score (ppf : ℚ → ℚ) : Fl → Fl
  | Fl.fin q =>
      if q = 0 then Fl.neginf
      else if q = 1 then Fl.posinf
      else if 0 < q ∧ q < 1 then Fl.fin (ppf q)
      else Fl.nan
  | _ => Fl.nan

/-- Shallow embedding of `compute_d_prime` from `searchnets/utils/metrics.py`,
parametric in the finite part `ppf` of the standard-normal quantile.
Returns `(hit_rate, false_alarm_rate, d_prime)`. -/
def compute_d_prime (ppf : ℚ → ℚ) (y_true y_pred : List ℤ) : Fl × Fl × Fl :=
  let h := hits y_true y_pred
  let m := misses y_true y_pred
  let hit_rate := Fl.div (Fl.fin h) (Fl.fin (h + m : ℕ))
  let fa := false_alarms y_true y_pred
  let cr := correct_rejects y_true y_pred
  let false_alarm_rate := Fl.div (Fl.fin fa) (Fl.fin (fa + cr : ℕ))
  let half_hit := Fl.div (Fl.fin (1/2)) (Fl.fin (h + m : ℕ))
  let half_fa := Fl.div (Fl.fin (1/2)) (Fl.fin (fa + cr : ℕ))
  let hit_rate := if hit_rate = Fl.fin 1 then Fl.sub (Fl.fin 1) half_hit else hit_rate
  let hit_rate := if hit_rate = Fl.fin 0 then half_hit else hit_rate
  let false_alarm_rate :=
    if false_alarm_rate = Fl.fin 1 then Fl.sub (Fl.fin 1) half_fa else false_alarm_rate
  let false_alarm_rate :=
    if false_alarm_rate = Fl.fin 0 then half_fa else false_alarm_rate
  let d_prime := Fl.sub (z_score ppf hit_rate) (z_score ppf false_alarm_rate)
  (hit_rate, false_alarm_rate, d_prime)

/-! Grid metrics: `acc_grid` and `err_grid`.  A stimulus grid is a 2-D array
of one-character strings (`""` marks an empty cell).  Cells of the accuracy
grid are `Option ℚ`, with `none` standing for numpy's NaN at zero-trial
cells (`0/0`). -/

/-- Character grid of one stimulus: rows of cell strings. -/
abbrev CharGrid := List (List String)

/-- Shape of a grid as numpy sees a rectangular nested list. -/
def gridShape (g : CharGrid) : ℕ × List ℕ := (g.length, g.map List.length)

/-- Ascending indices at which `stim_fnames` equals `fname`
(`np.nonzero(stim_fnames == g_fname)[0]`). -/
def matchIdxs (stim_fnames : List String) (fname : String) : List ℕ :=
  (stim_fnames.enum.filter (fun p => p.2 == fname)).map (·.1)

/-- Add 1 to every count whose grid cell is non-empty
(the per-cell increment loop over `np.nonzero(g != '')`). -/
def bumpGrid (counts : List (List ℕ)) (g : CharGrid) : List (List ℕ) :=
  counts.zipWith (fun cr gr => cr.zipWith (fun c cell => if cell ≠ "" then c + 1 else c) gr) g

/-- All-zero counts array of the same shape as `g` (`np.zeros(grid_shape)`). -/
def zerosLike (g : CharGrid) : List (List ℕ) :=
  g.map (fun row => row.map (fun _ => 0))

/-- Shallow embedding of `acc_grid` from `searchnets/utils/metrics.py`.
Returns the accuracy grid and, when `return_counts` is true, the raw
correct/trial count arrays. -/
def acc_grid (stim_fnames : List String) (y_true y_pred : List ℤ)
    (char_grids : List CharGrid) (stim_fnames_meta : List String)
    (return_counts : Bool) :
    Except String (List (List (Option ℚ)) × Option (List (List ℕ) × List (List ℕ))) := do
  match char_grids with
  | [] =>
      -- an empty grid list gives an empty shape set, `len(grid_shape) == 1` fails
      Except.error "ValueError: found more than one shape for visual search stimuli grids"
  | g0 :: rest =>
      if rest.all (fun g => gridShape g = gridShape g0) then do
        let init := zerosLike g0
        let (correct_counts, trial_counts) ←
          (char_grids.zip stim_fnames_meta).foldlM
            (fun (p : List (List ℕ) × List (List ℕ)) (e : CharGrid × String) => do
              let (g, g_fname) := e
              let idxs := matchIdxs stim_fnames g_fname
              if idxs.length = 1 then
                let ind := idxs.headD 0
                match y_true.get? ind, y_pred.get? ind with
                | some t, some pr =>
                    let is_correct := t = pr
                    pure (if is_correct then bumpGrid p.1 g else p.1, bumpGrid p.2 g)
                | _, _ => Except.error "IndexError: index out of bounds for y_true or y_pred"
              else
                Except.error "ValueError: did not find only one index in list of stimulus filenames")
            (init, init)
        let acc := correct_counts.zipWith
          (fun ccr tcr => ccr.zipWith
            (fun c t => if t = 0 then none else some ((c : ℚ) / (t : ℚ))) tcr)
          trial_counts
        pure (acc, if return_counts then some (correct_counts, trial_counts) else none)
      else
        Except.error "ValueError: found more than one shape for visual search stimuli grids"

/-- Shallow embedding of `err_grid`: calls `acc_grid`, complements the
accuracy grid elementwise (`1 - acc`; NaN cells stay NaN) and passes the
count arrays through unchanged. -/
def err_grid (stim_fnames : List String) (y_true y_pred : List ℤ)
    (char_grids : List CharGrid) (stim_fnames_meta : List String)
    (return_counts : Bool) :
    Except String (List (List (Option ℚ)) × Option (List (List ℕ) × List (List ℕ))) := do
  let (acc, counts) ← acc_grid stim_fnames y_true y_pred char_grids stim_fnames_meta return_counts
  let err := acc.map (List.map (Option.map (fun a => 1 - a)))
  pure (err, counts)

/-! Dataset partitioner (`searchnets/data.py`, function `data`).

The manifest (the parsed .json file, with set-size keys already converted to
integers and records reduced to their `filename` field) is an ordered
association list: stimulus type → set size → presence key → leaf pool of
filenames.  Python's global `random` stream is modelled by an explicit
`s : ℕ → ℕ` together with a running counter: `random.shuffle` of a pool of
length n consumes stream values at the next n counter positions.  Python
local variables that may be read before assignment (`stim_type_vec_val`) are
modelled by `Option`, with `none` for "unbound". -/

/-- Presence entries of one set size: presence key → filenames of the leaf pool. -/
abbrev PresenceList := List (String × List String)

/-- Set-size entries of one stimulus type. -/
abbrev SetSizeList := List (ℕ × PresenceList)

/-- Parsed stimulus manifest. -/
abbrev Manifest := List (String × SetSizeList)

/-- Does `needle` occur at the start of the character list? -/
def startsWithChars : List Char → List Char → Bool
  | [], _ => true
  | _ :: _, [] => false
  | a :: as, b :: bs => a == b && startsWithChars as bs

/-- Does `needle` occur anywhere in the character list (Python `in` on str)? -/
def containsChars (needle : List Char) : List Char → Bool
  | [] => needle.isEmpty
  | c :: rest => startsWithChars needle (c :: rest) || containsChars needle rest

/-- Binary label of a sample: 1 iff the substring `"present"` occurs in the
stored file path (`'present' in fname`). -/
def label (fname : String) : ℕ :=
  if containsChars "present".toList fname.toList then 1 else 0

/-- Exact integer division as performed by the source's
`x / y` float division followed by `is_integer()`; division by zero is the
fatal `ZeroDivisionError`, a non-integer quotient the fatal `TypeError`. -/
def exactDivNat (a b : ℕ) : Except String ℕ :=
  if b ≠ 0 ∧ a % b = 0 then pure (a / b)
  else Except.error "TypeError: size is not a whole number"

/-- Exact integer division for possibly negative sizes. -/
def exactDivInt (a : ℤ) (b : ℕ) : Except String ℤ :=
  if b ≠ 0 ∧ a % (b : ℤ) = 0 then pure (a / (b : ℤ))
  else Except.error "TypeError: size is not a whole number"

/-- Stream-driven shuffle: repeatedly draw the element at position
`s c % length` from what remains of the list.  This models
`random.shuffle(inds)` as a deterministic function of the pseudo-random
stream; one stream value is consumed per element. -/
def shuffleGo (s : ℕ → ℕ) : ℕ → ℕ → List String → List String
  | 0, _, _ => []
  | fuel + 1, c, l =>
      match l.get? (s c % l.length) with
      | none => []
      | some a => a :: shuffleGo s fuel (c + 1) (l.eraseIdx (s c % l.length))

/-- Shuffle a pool starting at stream counter `c`. -/
def shuffleStream (s : ℕ → ℕ) (c : ℕ) (l : List String) : List String :=
  shuffleGo s l.length c l

/-- Per-leaf sampling result: the filenames drawn for each split. -/
structure LeafOut where
  trainL : List String
  valL : List String
  testL : List String
deriving DecidableEq

/-- `total_size`: the sum over the three per-leaf sizes of every size that
`is not 0 and is not -1`. -/
def totalSize (tpss vpss : ℕ) (tss : ℤ) : ℤ :=
  (if (tpss : ℤ) ≠ 0 ∧ (tpss : ℤ) ≠ -1 then (tpss : ℤ) else 0) +
  (if (vpss : ℤ) ≠ 0 ∧ (vpss : ℤ) ≠ -1 then (vpss : ℤ) else 0) +
  (if tss ≠ 0 ∧ tss ≠ -1 then tss else 0)

/-- Sampling of one leaf pool: oversubscription check, shuffle, then pop
`train` filenames off the end of the shuffled index list, then `val` (only
drawn when its count is positive — the code guards that draw), then either
`test` more (fixed count) or all that remain in list order (remainder mode,
`tss = -1`).  The train draw and the remainder-mode test draw index the
filename array with `np.asarray` of the popped index list; when that list
is empty the array is float64-typed and numpy raises `IndexError` (train
count zero, or an exhausted remainder), so those cases are errors, not
empty draws.  A `tss` that is neither positive nor `-1` leaves `test_inds`
unassigned and dies reading it (that case is unreachable from `data`, whose
whole-number checks force a positive per-leaf count or the `-1`
sentinel). -/
def sampleLeaf (s : ℕ → ℕ) (c : ℕ) (tpss vpss : ℕ) (tss : ℤ)
    (pool : List String) : Except String (LeafOut × ℕ) :=
  if totalSize tpss vpss tss > (pool.length : ℤ) then
    Except.error "ValueError: number of samples for training + validation set is larger than number of samples in data set"
  else if tpss = 0 then
    Except.error "IndexError: arrays used as indices must be of integer (or boolean) type"
  else if tss > 0 then
    Except.ok (⟨((shuffleStream s c pool).reverse).take tpss,
      (((shuffleStream s c pool).reverse).drop tpss).take vpss,
      ((((shuffleStream s c pool).reverse).drop tpss).drop vpss).take tss.toNat⟩,
      c + pool.length)
  else if tss = -1 then
    if (((shuffleStream s c pool).reverse).drop tpss).drop vpss = [] then
      Except.error "IndexError: arrays used as indices must be of integer (or boolean) type"
    else
      Except.ok (⟨((shuffleStream s c pool).reverse).take tpss,
        (((shuffleStream s c pool).reverse).drop tpss).take vpss,
        (((((shuffleStream s c pool).reverse).drop tpss).drop vpss)).reverse⟩,
        c + pool.length)
  else
    Except.error "UnboundLocalError: local variable test_inds referenced before assignment"

/-- Mutable accumulator state of `data`'s nested loops.  For the three
`*_val` accumulators, `none` models the Python variable holding `None`
(`x_val`, `set_size_vec_val`) or being unbound (`stim_type_vec_val`). -/
structure St where
  xTrain : List String
  ssTrain : List ℕ
  stTrain : List String
  xVal : Option (List String)
  ssVal : Option (List ℕ)
  stVal : Option (List String)
  xTest : List String
  ssTest : List ℕ
  stTest : List String
  catalog : List (String × List ℕ)
deriving DecidableEq

/-- Appending one leaf's draws to the accumulators.  Faithful to
`data.py` line 231: the stimulus-type tags of the test draw are appended to
`stim_type_vec_train`, and `stim_type_vec_test` is never extended. -/
def appendLeaf (st : St) (stimType : String) (setSize : ℕ) (vpss : ℕ)
    (lo : LeafOut) : St :=
  let st := { st with
    xTrain := st.xTrain ++ lo.trainL,
    ssTrain := st.ssTrain ++ List.replicate lo.trainL.length setSize,
    stTrain := st.stTrain ++ List.replicate lo.trainL.length stimType }
  let st := if vpss > 0 then
      { st with
        xVal := st.xVal.map (· ++ lo.valL),
        ssVal := st.ssVal.map (· ++ List.replicate lo.valL.length setSize),
        stVal := st.stVal.map (· ++ List.replicate lo.valL.length stimType) }
    else st
  { st with
    xTest := st.xTest ++ lo.testL,
    ssTest := st.ssTest ++ List.replicate lo.testL.length setSize,
    stTrain := st.stTrain ++ List.replicate lo.testL.length stimType }

/-- Body of the inner presence loop for one leaf: sample the leaf pool and
append the draws (with their set-size and stimulus-type tags) to the
accumulators. -/
def leafStep (s : ℕ → ℕ) (tpss vpss : ℕ) (tss : ℤ)
    (stimType : String) (setSize : ℕ)
    (q : St × ℕ) (pe : String × List String) : Except String (St × ℕ) :=
  sampleLeaf s q.2 tpss vpss tss pe.2 >>= fun lc =>
  pure (appendLeaf q.1 stimType setSize vpss lc.1, lc.2)

/-- Body of the outer loop over stimulus types: record the catalog entry,
compute the per-set-size sizes with their whole-number checks, then walk the
set-size and presence loops sampling each leaf pool. -/
def processType (s : ℕ → ℕ) (valPos : Bool) (test_size : Option ℤ)
    (trainPT valPT : ℕ) (testPT : ℤ)
    (acc : St × ℕ) (stimType : String) (sss : SetSizeList) :
    Except String (St × ℕ) :=
  let setSizes := sss.map (·.1)
  let st0 := { acc.1 with catalog := acc.1.catalog ++ [(stimType, setSizes)] }
  let n := setSizes.length
  exactDivNat trainPT (n * 2) >>= fun tpss =>
  (if valPos then exactDivNat valPT (n * 2) else pure 0) >>= fun vpss =>
  (match test_size with
   | none => pure (-1 : ℤ)
   | some t =>
       if t = -1 then pure (-1 : ℤ)
       else if t > 0 then exactDivInt testPT (n * 2)
       else Except.error "ValueError: invalid test size") >>= fun tss =>
  sss.foldlM
    (fun (p : St × ℕ) (ssEntry : ℕ × PresenceList) =>
      ssEntry.2.foldlM (leafStep s tpss vpss tss stimType ssEntry.1) p)
    (st0, acc.2)

/-- The serialized dataset bundle (the dictionary passed to `joblib.dump`). -/
structure Bundle where
  x_train : List String
  y_train : List ℕ
  x_val : Option (List String)
  y_val : Option (List ℕ)
  x_test : List String
  y_test : List ℕ
  set_size_vec_train : List ℕ
  set_size_vec_val : Option (List ℕ)
  set_size_vec_test : List ℕ
  set_sizes_by_stim_stype : List (String × List ℕ)
  stim_type_vec_train : List String
  stim_type_vec_val : Option (List String)
  stim_type_vec_test : List String
deriving DecidableEq

/-- Truthiness of the `val_size` argument (`if val_size:`). -/
def valPosOf (val_size : Option ℕ) : Bool :=
  match val_size with | some v => v != 0 | none => false

/-- Initial accumulator state: empty train/test lists; the val accumulators
are lists when `val_size` is truthy, otherwise `x_val` and
`set_size_vec_val` hold `None` and `stim_type_vec_val` stays unbound. -/
def initSt (valPos : Bool) : St := {
  xTrain := [], ssTrain := [], stTrain := [],
  xVal := if valPos then some [] else none,
  ssVal := if valPos then some [] else none,
  stVal := if valPos then some [] else none,
  xTest := [], ssTest := [], stTest := [], catalog := [] }

/-- The dictionary handed to `joblib.dump`, with labels derived from the
accumulated file paths. -/
def assembleBundle (valPos : Bool) (st : St) (stv : List String) : Bundle := {
  x_train := st.xTrain, y_train := st.xTrain.map label,
  x_val := st.xVal,
  y_val := if valPos then st.xVal.map (·.map label) else none,
  x_test := st.xTest, y_test := st.xTest.map label,
  set_size_vec_train := st.ssTrain,
  set_size_vec_val := st.ssVal,
  set_size_vec_test := st.ssTest,
  set_sizes_by_stim_stype := st.catalog,
  stim_type_vec_train := st.stTrain,
  stim_type_vec_val := some stv,
  stim_type_vec_test := st.stTest }

/-- Shallow embedding of `data` from `searchnets/data.py`.  `s` is the
pseudo-random stream consumed by the shuffles.  File discovery and
serialization are outside the model; the returned `Bundle` is the dictionary
that would be written.  Reading the never-assigned `stim_type_vec_val` while
building that dictionary is the Python `UnboundLocalError`. -/
def data (s : ℕ → ℕ) (manifest : Manifest) (train_size : ℕ)
    (val_size : Option ℕ) (test_size : Option ℤ) : Except String Bundle :=
  let numStim := manifest.length
  let valPos : Bool := valPosOf val_size
  exactDivNat train_size numStim >>= fun trainPT =>
  (if valPos then exactDivNat (val_size.getD 0) numStim else pure 0) >>= fun valPT =>
  (match test_size with
   | some t => if t ≠ 0 then exactDivInt t numStim else pure (-1 : ℤ)
   | none => pure (-1 : ℤ)) >>= fun testPT =>
  (manifest.foldlM
    (fun acc entry => processType s valPos test_size trainPT valPT testPT acc entry.1 entry.2)
    (initSt valPos, 0)) >>= fun p =>
  match p.1.stVal with
  | none =>
      Except.error "NameError: local variable stim_type_vec_val referenced before assignment"
  | some stv => pure (assembleBundle valPos p.1 stv)

/-- Number of pseudo-random stream values consumed by the leaves of one
presence list (one value per pool element). -/
def presUse (pl : PresenceList) : ℕ := (pl.map (fun pe => pe.2.length)).sum

/-- Stream values consumed by all leaves of one stimulus type. -/
def ssUse (sss : SetSizeList) : ℕ := (sss.map (fun ss => presUse ss.2)).sum

/-- Stream values consumed by a full run over the manifest. -/
def streamUse (m : Manifest) : ℕ := (m.map (fun t => ssUse t.2)).sum

/-- What one successful leaf draw looks like: the exact per-split counts
(`test` either the fixed count or the whole remainder) and the fact that the
three draws plus a leftover are jointly a permutation of the leaf pool
(sampling is without replacement). -/
def leafRel (tpss vpss : ℕ) (tss : ℤ) (lo : LeafOut) (pool : List String) : Prop :=
  lo.trainL.length = tpss ∧ lo.valL.length = vpss ∧
  (0 < tss → lo.testL.length = tss.toNat) ∧
  (tss = -1 → lo.testL.length = pool.length - tpss - vpss) ∧
  ∃ rest : List String, (lo.trainL ++ (lo.valL ++ (lo.testL ++ rest))).Perm pool

/-- All leaf pools of the manifest, in traversal order. -/
def poolsOf (m : Manifest) : List (List String) :=
  (m.map (fun t => (t.2.map (fun ss => ss.2.map (fun pe => pe.2))).join)).join

/-- Per-leaf test parameter for one stimulus type: −1 (remainder mode) when
`test_size` is unset or the −1 sentinel, otherwise the per-leaf fixed count
computed from the per-stimulus-type total. -/
def testSpecOf (test_size : Option ℤ) (testPT : ℤ) (n2 : ℕ) : ℤ :=
  match test_size with
  | none => -1
  | some tv => if tv = -1 then -1 else testPT / (n2 : ℤ)

/-- How much one leaf's test draw contributes to the oversubscription bound:
zero in remainder mode, the fixed per-leaf count otherwise. -/
def testPerLeaf (test_size : Option ℤ) (testPT : ℤ) (n2 : ℕ) : ℕ :=
  match test_size with
  | none => 0
  | some tv => if tv = -1 then 0 else (testPT / (n2 : ℤ)).toNat

/-- The per-stimulus-type test total as `data` computes it: the exact
quotient for a truthy `test_size`, −1 otherwise. -/
def testPTOf (test_size : Option ℤ) (numStim : ℕ) : ℤ :=
  match test_size with
  | some tv => tv / (numStim : ℤ)
  | none => -1

/-- Expected per-leaf sampling parameters, one entry per leaf in traversal
order: (train per leaf, val per leaf, test per leaf or −1 for remainder,
leaf pool), computed from the per-stimulus-type totals by the whole-number
divisions of `data`. -/
def leafSpecs (valPos : Bool) (test_size : Option ℤ) (trainPT valPT : ℕ)
    (testPT : ℤ) (m : Manifest) : List (ℕ × ℕ × ℤ × List String) :=
  (m.map (fun t =>
    (t.2.map (fun ss => ss.2.map (fun pe =>
      (trainPT / (t.2.length * 2),
       if valPos then valPT / (t.2.length * 2) else 0,
       testSpecOf test_size testPT (t.2.length * 2),
       pe.2)))).join)).join

/-- A small concrete manifest (one stimulus type, one set size, the two
presence conditions, three files per leaf pool) used to evaluate the
partitioning theorems on a closed input. -/
def wManifest : Manifest :=
  [("a", [(3, [("present", ["present_1", "present_2", "present_3"]),
               ("absent", ["absent_1", "absent_2", "absent_3"])])])]

/-! Helper lemmas for the signal-detection theorems. -/

/-- The boundary-correction chain applied to one rate: raw rate `x/(x+y)`,
then replace an exact 1 by `1 - 0.5/(x+y)` and an exact 0 by `0.5/(x+y)`.
`compute_d_prime` applies this chain to both rates. -/
def corrRate (x y : ℕ) : Fl :=
  let raw := Fl.div (Fl.fin x) (Fl.fin (x + y : ℕ))
  let half := Fl.div (Fl.fin (1/2)) (Fl.fin (x + y : ℕ))
  let r1 := if raw = Fl.fin 1 then Fl.sub (Fl.fin 1) half else raw
  if r1 = Fl.fin 0 then half else r1

theorem compute_d_prime_eq (ppf : ℚ → ℚ) (y_true y_pred : List ℤ) :
    compute_d_prime ppf y_true y_pred =
      (corrRate (hits y_true y_pred) (misses y_true y_pred),
       corrRate (false_alarms y_true y_pred) (correct_rejects y_true y_pred),
       Fl.sub (z_score ppf (corrRate (hits y_true y_pred) (misses y_true y_pred)))
         (z_score ppf (corrRate (false_alarms y_true y_pred) (correct_rejects y_true y_pred)))) :=
  rfl

theorem Fl.div_fin_of_ne (a b : ℚ) (hb : b ≠ 0) :
    Fl.div (Fl.fin a) (Fl.fin b) = Fl.fin (a / b) := by
  simp [Fl.div, hb]

theorem Fl.sub_fin_fin (a b : ℚ) :
    Fl.sub (Fl.fin a) (Fl.fin b) = Fl.fin (a - b) := rfl

theorem corrRate_spec (x y : ℕ) (hpos : x + y ≠ 0) :
    ∃ r : ℚ, corrRate x y = Fl.fin r ∧ 0 < r ∧ r < 1 ∧
      ((x : ℚ) / ((x + y : ℕ) : ℚ) = 1 → r = 1 - (1/2) / ((x + y : ℕ) : ℚ)) ∧
      ((x : ℚ) / ((x + y : ℕ) : ℚ) = 0 → r = (1/2) / ((x + y : ℕ) : ℚ)) ∧
      ((x : ℚ) / ((x + y : ℕ) : ℚ) ≠ 1 → (x : ℚ) / ((x + y : ℕ) : ℚ) ≠ 0 →
        r = (x : ℚ) / ((x + y : ℕ) : ℚ)) := by
  have hN : ((x + y : ℕ) : ℚ) ≠ 0 := Nat.cast_ne_zero.mpr hpos
  have hN1 : (1 : ℚ) ≤ ((x + y : ℕ) : ℚ) :=
    Nat.one_le_cast.mpr (Nat.pos_of_ne_zero hpos)
  have hhalfpos : 0 < (1/2 : ℚ) / ((x + y : ℕ) : ℚ) :=
    div_pos (by norm_num) (lt_of_lt_of_le zero_lt_one hN1)
  have hhalflt : (1/2 : ℚ) / ((x + y : ℕ) : ℚ) < 1 :=
    lt_of_le_of_lt (div_le_self (by norm_num) hN1) (by norm_num)
  have hcr : corrRate x y =
      (if (if Fl.fin ((x : ℚ) / ((x + y : ℕ) : ℚ)) = Fl.fin 1
           then Fl.sub (Fl.fin 1) (Fl.fin ((1/2 : ℚ) / ((x + y : ℕ) : ℚ)))
           else Fl.fin ((x : ℚ) / ((x + y : ℕ) : ℚ))) = Fl.fin 0
       then Fl.fin ((1/2 : ℚ) / ((x + y : ℕ) : ℚ))
       else (if Fl.fin ((x : ℚ) / ((x + y : ℕ) : ℚ)) = Fl.fin 1
             then Fl.sub (Fl.fin 1) (Fl.fin ((1/2 : ℚ) / ((x + y : ℕ) : ℚ)))
             else Fl.fin ((x : ℚ) / ((x + y : ℕ) : ℚ)))) := by
    rw [corrRate]
    rw [Fl.div_fin_of_ne _ _ hN, Fl.div_fin_of_ne _ _ hN]
  by_cases h1 : (x : ℚ) / ((x + y : ℕ) : ℚ) = 1
  · have hne0 : (1 : ℚ) - (1/2) / ((x + y : ℕ) : ℚ) ≠ 0 := by
      intro hc; rw [sub_eq_zero] at hc; exact absurd hc.symm (ne_of_lt hhalflt)
    refine ⟨1 - (1/2) / ((x + y : ℕ) : ℚ), ?_, by linarith, by linarith,
      fun _ => rfl, fun h0 => absurd (h1.symm.trans h0) (by norm_num),
      fun hne _ => absurd h1 hne⟩
    rw [hcr, h1, if_pos rfl, Fl.sub_fin_fin]
    rw [if_neg (fun hc => hne0 (Fl.fin.inj hc))]
  · have hne1 : Fl.fin ((x : ℚ) / ((x + y : ℕ) : ℚ)) ≠ Fl.fin 1 :=
      fun hc => h1 (Fl.fin.inj hc)
    by_cases h0 : (x : ℚ) / ((x + y : ℕ) : ℚ) = 0
    · refine ⟨(1/2) / ((x + y : ℕ) : ℚ), ?_, hhalfpos, hhalflt,
        fun hc => absurd (h0.symm.trans hc) (by norm_num), fun _ => rfl,
        fun _ hne => absurd h0 hne⟩
      rw [hcr, if_neg hne1, if_pos (by rw [h0])]
    · have hge : 0 ≤ (x : ℚ) / ((x + y : ℕ) : ℚ) :=
        div_nonneg (Nat.cast_nonneg x) (le_of_lt (lt_of_lt_of_le zero_lt_one hN1))
      have hle : (x : ℚ) / ((x + y : ℕ) : ℚ) ≤ 1 := by
        rw [div_le_one (lt_of_lt_of_le zero_lt_one hN1)]
        exact Nat.cast_le.mpr (Nat.le_add_right x y)
      refine ⟨(x : ℚ) / ((x + y : ℕ) : ℚ), ?_, lt_of_le_of_ne hge (Ne.symm h0),
        lt_of_le_of_ne hle h1, fun hc => absurd hc h1, fun hc => absurd hc h0,
        fun _ _ => rfl⟩
      rw [hcr, if_neg hne1, if_neg (fun hc => h0 (Fl.fin.inj hc))]

theorem z_score_fin (ppf : ℚ → ℚ) (r : ℚ) (h0 : 0 < r) (h1 : r < 1) :
    z_score ppf (Fl.fin r) = Fl.fin (ppf r) := by
  simp [z_score, ne_of_gt h0, ne_of_lt h1, h0, h1]

/-- Splitting a count over a binary first component. -/
theorem countP_split (l : List (ℤ × ℤ)) (b : ℤ)
    (hbin : ∀ p ∈ l, p.1 = 0 ∨ p.1 = 1) :
    l.countP (fun p => p.1 == 1 && p.2 == b) +
      l.countP (fun p => p.1 == 0 && p.2 == b) =
      l.countP (fun p => p.2 == b) := by
  induction l with
  | nil => rfl
  | cons a l ih =>
      have ha := hbin a (List.mem_cons_self a l)
      have ih' := ih (fun p hp => hbin p (List.mem_cons_of_mem a hp))
      by_cases hb : a.2 = b
      · rcases ha with h | h <;> simp [List.countP_cons, h, hb] <;> omega
      · rcases ha with h | h <;> simp [List.countP_cons, h, hb] <;> omega

theorem countP_snd_pos (y_true y_pred : List ℤ) (b : ℤ)
    (hlen : y_pred.length = y_true.length) (hmem : b ∈ y_true) :
    0 < (y_pred.zip y_true).countP (fun p => p.2 == b) := by
  rw [List.countP_pos_iff]
  obtain ⟨⟨i, hi⟩, hget⟩ := List.mem_iff_get.mp hmem
  have hi' : i < (y_pred.zip y_true).length := by
    rw [List.length_zip, hlen]
    exact lt_min hi hi
  refine ⟨(y_pred.zip y_true).get ⟨i, hi'⟩, List.get_mem _ _ _, ?_⟩
  have : (y_pred.zip y_true).get ⟨i, hi'⟩ =
      (y_pred.get ⟨i, by omega⟩, y_true.get ⟨i, hi⟩) := by
    simp [List.get_eq_getElem, List.getElem_zip]
  rw [this, hget]
  simp

theorem Fl.nan_sub (x : Fl) : Fl.sub Fl.nan x = Fl.nan := by cases x <;> rfl

theorem Fl.sub_nan (x : Fl) : Fl.sub x Fl.nan = Fl.nan := by cases x <;> rfl

theorem corrRate_zero : corrRate 0 0 = Fl.nan := by
  have hdiv0 : ∀ a : ℚ, 0 ≤ a → Fl.div (Fl.fin a) (Fl.fin ((0 + 0 : ℕ) : ℚ)) =
      (if a > 0 then Fl.posinf else Fl.nan) := by
    intro a ha
    by_cases hpos : a > 0 <;> simp [Fl.div, hpos, not_lt_of_le ha]
  rw [corrRate, hdiv0 _ (by norm_num), hdiv0 _ (by norm_num)]
  simp

/-- C4 (counterexample): on an input whose target-present class is empty,
`compute_d_prime` does not raise; numpy's `0/0` produces NaN with a runtime
warning, and the function silently returns NaN for the hit rate and d-prime
together with the ordinary false-alarm rate. -/
theorem compute_d_prime_degenerate_value :
    compute_d_prime (fun _ => 0) [0, 0, 0] [0, 1, 0] =
      (Fl.nan, Fl.fin (1/3), Fl.nan) := by
  have hh : hits [0, 0, 0] [0, 1, 0] = 0 := by decide
  have hm : misses [0, 0, 0] [0, 1, 0] = 0 := by decide
  have hf : false_alarms [0, 0, 0] [0, 1, 0] = 1 := by decide
  have hc : correct_rejects [0, 0, 0] [0, 1, 0] = 2 := by decide
  obtain ⟨r, hreq, -, -, -, -, hrm⟩ := corrRate_spec 1 2 (by norm_num)
  have hr13 : r = 1/3 := by
    rw [hrm (by norm_num) (by norm_num)]; norm_num
  rw [compute_d_prime_eq, hh, hm, hf, hc, corrRate_zero, hreq, hr13]
  have hz : z_score (fun _ => (0 : ℚ)) Fl.nan = Fl.nan := rfl
  rw [hz, Fl.nan_sub]

/-- C4 (as amended): for every input with an empty target-present class the
returned hit rate and d-prime are NaN, and for every input with an empty
lure class the returned false-alarm rate and d-prime are NaN; no error is
raised in either case. -/
theorem compute_d_prime_degenerate (ppf : ℚ → ℚ) (y_true y_pred : List ℤ) :
    ((∀ v ∈ y_true, v ≠ 1) →
       (compute_d_prime ppf y_true y_pred).1 = Fl.nan ∧
       (compute_d_prime ppf y_true y_pred).2.2 = Fl.nan) ∧
    ((∀ v ∈ y_true, v ≠ 0) →
       (compute_d_prime ppf y_true y_pred).2.1 = Fl.nan ∧
       (compute_d_prime ppf y_true y_pred).2.2 = Fl.nan) := by
  constructor
  · intro h
    have hhit : hits y_true y_pred = 0 := by
      rw [hits, List.countP_eq_zero]
      intro p hp
      have := (List.of_mem_zip hp).2
      simp only [Bool.and_eq_true, beq_iff_eq]
      exact fun hc => h p.2 this hc.2
    have hmiss : misses y_true y_pred = 0 := by
      rw [misses, List.countP_eq_zero]
      intro p hp
      have := (List.of_mem_zip hp).2
      simp only [Bool.and_eq_true, beq_iff_eq]
      exact fun hc => h p.2 this hc.2
    rw [compute_d_prime_eq, hhit, hmiss, corrRate_zero]
    exact ⟨rfl, Fl.nan_sub _⟩
  · intro h
    have hfa : false_alarms y_true y_pred = 0 := by
      rw [false_alarms, List.countP_eq_zero]
      intro p hp
      have := (List.of_mem_zip hp).2
      simp only [Bool.and_eq_true, beq_iff_eq]
      exact fun hc => h p.2 this hc.2
    have hcr : correct_rejects y_true y_pred = 0 := by
      rw [correct_rejects, List.countP_eq_zero]
      intro p hp
      have := (List.of_mem_zip hp).2
      simp only [Bool.and_eq_true, beq_iff_eq]
      exact fun hc => h p.2 this hc.2
    rw [compute_d_prime_eq, hfa, hcr, corrRate_zero]
    exact ⟨rfl, Fl.sub_nan _⟩

/-- C4 (witness): the amended degeneracy theorem applied at a concrete
input with no target-present samples. -/
theorem compute_d_prime_degenerate_witness :
    (∀ v ∈ ([0, 0] : List ℤ), v ≠ 1) ∧
    ((compute_d_prime (fun _ => 0) [0, 0] [1, 0]).1 = Fl.nan ∧
     (compute_d_prime (fun _ => 0) [0, 0] [1, 0]).2.2 = Fl.nan) :=
  ⟨by decide, (compute_d_prime_degenerate (fun _ => 0) [0, 0] [1, 0]).1 (by decide)⟩

/-- C5: for inputs with binary predictions, at least one target-present
sample and at least one target-absent sample, `compute_d_prime` returns only
finite values (no infinity or NaN): both returned rates are strictly between
0 and 1, a raw rate of exactly 1 is replaced by `1 - 0.5/N` and a raw rate
of exactly 0 by `0.5/N` (with `N` the corresponding denominator:
hits+misses for the hit rate, false_alarms+correct_rejects for the
false-alarm rate), and d-prime is the difference of the quantiles of the
corrected rates. -/
theorem compute_d_prime_boundary (ppf : ℚ → ℚ) (y_true y_pred : List ℤ)
    (hlen : y_pred.length = y_true.length)
    (hbp : ∀ v ∈ y_pred, v = 0 ∨ v = 1)
    (htar : (1 : ℤ) ∈ y_true) (hlur : (0 : ℤ) ∈ y_true) :
    ∃ hr far : ℚ,
      compute_d_prime ppf y_true y_pred =
        (Fl.fin hr, Fl.fin far, Fl.fin (ppf hr - ppf far)) ∧
      0 < hr ∧ hr < 1 ∧ 0 < far ∧ far < 1 ∧
      ((hits y_true y_pred : ℚ) /
          ((hits y_true y_pred + misses y_true y_pred : ℕ) : ℚ) = 1 →
        hr = 1 - (1/2) / ((hits y_true y_pred + misses y_true y_pred : ℕ) : ℚ)) ∧
      ((hits y_true y_pred : ℚ) /
          ((hits y_true y_pred + misses y_true y_pred : ℕ) : ℚ) = 0 →
        hr = (1/2) / ((hits y_true y_pred + misses y_true y_pred : ℕ) : ℚ)) ∧
      ((false_alarms y_true y_pred : ℚ) /
          ((false_alarms y_true y_pred + correct_rejects y_true y_pred : ℕ) : ℚ) = 1 →
        far = 1 - (1/2) /
          ((false_alarms y_true y_pred + correct_rejects y_true y_pred : ℕ) : ℚ)) ∧
      ((false_alarms y_true y_pred : ℚ) /
          ((false_alarms y_true y_pred + correct_rejects y_true y_pred : ℕ) : ℚ) = 0 →
        far = (1/2) /
          ((false_alarms y_true y_pred + correct_rejects y_true y_pred : ℕ) : ℚ)) := by
  have hbin : ∀ p ∈ y_pred.zip y_true, p.1 = 0 ∨ p.1 = 1 :=
    fun p hp => hbp p.1 (List.of_mem_zip hp).1
  have hP : hits y_true y_pred + misses y_true y_pred ≠ 0 := by
    have := countP_split (y_pred.zip y_true) 1 hbin
    have hpos := countP_snd_pos y_true y_pred 1 hlen htar
    rw [hits, misses, this]
    omega
  have hQ : false_alarms y_true y_pred + correct_rejects y_true y_pred ≠ 0 := by
    have := countP_split (y_pred.zip y_true) 0 hbin
    have hpos := countP_snd_pos y_true y_pred 0 hlen hlur
    rw [false_alarms, correct_rejects, this]
    omega
  obtain ⟨hr, hreq, hr0, hr1, hrf1, hrf0, _⟩ :=
    corrRate_spec (hits y_true y_pred) (misses y_true y_pred) hP
  obtain ⟨far, fareq, far0, far1, farf1, farf0, _⟩ :=
    corrRate_spec (false_alarms y_true y_pred) (correct_rejects y_true y_pred) hQ
  refine ⟨hr, far, ?_, hr0, hr1, far0, far1, hrf1, hrf0, farf1, farf0⟩
  rw [compute_d_prime_eq, hreq, fareq, z_score_fin ppf hr hr0 hr1,
    z_score_fin ppf far far0 far1, Fl.sub_fin_fin]

/-- C5 (witness): the boundary theorem applied at a concrete input whose raw
hit rate is exactly 1. -/
theorem compute_d_prime_boundary_witness :
    ([1, 1, 1, 0, 0, 1] : List ℤ).length = ([1, 1, 1, 0, 0, 0] : List ℤ).length ∧
    (∀ v ∈ ([1, 1, 1, 0, 0, 1] : List ℤ), v = 0 ∨ v = 1) ∧
    (1 : ℤ) ∈ ([1, 1, 1, 0, 0, 0] : List ℤ) ∧
    (0 : ℤ) ∈ ([1, 1, 1, 0, 0, 0] : List ℤ) ∧
    (∃ hr far : ℚ,
      compute_d_prime (fun _ => 0) [1, 1, 1, 0, 0, 0] [1, 1, 1, 0, 0, 1] =
        (Fl.fin hr, Fl.fin far, Fl.fin ((fun _ => (0:ℚ)) hr - (fun _ => (0:ℚ)) far)) ∧
      0 < hr ∧ hr < 1 ∧ 0 < far ∧ far < 1 ∧
      ((hits [1, 1, 1, 0, 0, 0] [1, 1, 1, 0, 0, 1] : ℚ) /
          ((hits [1, 1, 1, 0, 0, 0] [1, 1, 1, 0, 0, 1] +
            misses [1, 1, 1, 0, 0, 0] [1, 1, 1, 0, 0, 1] : ℕ) : ℚ) = 1 →
        hr = 1 - (1/2) / ((hits [1, 1, 1, 0, 0, 0] [1, 1, 1, 0, 0, 1] +
            misses [1, 1, 1, 0, 0, 0] [1, 1, 1, 0, 0, 1] : ℕ) : ℚ)) ∧
      ((hits [1, 1, 1, 0, 0, 0] [1, 1, 1, 0, 0, 1] : ℚ) /
          ((hits [1, 1, 1, 0, 0, 0] [1, 1, 1, 0, 0, 1] +
            misses [1, 1, 1, 0, 0, 0] [1, 1, 1, 0, 0, 1] : ℕ) : ℚ) = 0 →
        hr = (1/2) / ((hits [1, 1, 1, 0, 0, 0] [1, 1, 1, 0, 0, 1] +
            misses [1, 1, 1, 0, 0, 0] [1, 1, 1, 0, 0, 1] : ℕ) : ℚ)) ∧
      ((false_alarms [1, 1, 1, 0, 0, 0] [1, 1, 1, 0, 0, 1] : ℚ) /
          ((false_alarms [1, 1, 1, 0, 0, 0] [1, 1, 1, 0, 0, 1] +
            correct_rejects [1, 1, 1, 0, 0, 0] [1, 1, 1, 0, 0, 1] : ℕ) : ℚ) = 1 →
        far = 1 - (1/2) / ((false_alarms [1, 1, 1, 0, 0, 0] [1, 1, 1, 0, 0, 1] +
            correct_rejects [1, 1, 1, 0, 0, 0] [1, 1, 1, 0, 0, 1] : ℕ) : ℚ)) ∧
      ((false_alarms [1, 1, 1, 0, 0, 0] [1, 1, 1, 0, 0, 1] : ℚ) /
          ((false_alarms [1, 1, 1, 0, 0, 0] [1, 1, 1, 0, 0, 1] +
            correct_rejects [1, 1, 1, 0, 0, 0] [1, 1, 1, 0, 0, 1] : ℕ) : ℚ) = 0 →
        far = (1/2) / ((false_alarms [1, 1, 1, 0, 0, 0] [1, 1, 1, 0, 0, 1] +
            correct_rejects [1, 1, 1, 0, 0, 0] [1, 1, 1, 0, 0, 1] : ℕ) : ℚ))) :=
  ⟨rfl, by decide, by decide, by decide,
    compute_d_prime_boundary (fun _ => 0) [1, 1, 1, 0, 0, 0] [1, 1, 1, 0, 0, 1]
      rfl (by decide) (by decide) (by decide)⟩

/-- C6: the worked example: `y_true = [1,1,1,0,0,0]`, `y_pred = [1,1,0,0,1,0]`
gives hits 2, misses 1, false alarms 1, correct rejects 2, and
`compute_d_prime` returns, in order, hit rate 2/3, false-alarm rate 1/3 and
d-prime `ppf(2/3) − ppf(1/3)` (the difference of the standard-normal
quantiles, ≈ 0.9539 under scipy's floating-point quantile). -/
theorem compute_d_prime_worked_example (ppf : ℚ → ℚ) :
    hits [1, 1, 1, 0, 0, 0] [1, 1, 0, 0, 1, 0] = 2 ∧
    misses [1, 1, 1, 0, 0, 0] [1, 1, 0, 0, 1, 0] = 1 ∧
    false_alarms [1, 1, 1, 0, 0, 0] [1, 1, 0, 0, 1, 0] = 1 ∧
    correct_rejects [1, 1, 1, 0, 0, 0] [1, 1, 0, 0, 1, 0] = 2 ∧
    compute_d_prime ppf [1, 1, 1, 0, 0, 0] [1, 1, 0, 0, 1, 0] =
      (Fl.fin (2/3), Fl.fin (1/3), Fl.fin (ppf (2/3) - ppf (1/3))) := by
  refine ⟨by decide, by decide, by decide, by decide, ?_⟩
  simp only [compute_d_prime, hits, misses, false_alarms, correct_rejects]
  simp [List.countP, List.countP.go, List.zip, List.zipWith]
  norm_num [Fl.div, Fl.sub, z_score]

theorem Except.ok_bind {ε α β : Type} (a : α) (f : α → Except ε β) :
    (Except.ok a >>= f : Except ε β) = f a := rfl

theorem exbind_ok {ε α β : Type} {x : Except ε α} {f : α → Except ε β} {b : β}
    (h : (x >>= f) = Except.ok b) : ∃ a, x = Except.ok a ∧ f a = Except.ok b := by
  cases x with
  | error e => exact Except.noConfusion h
  | ok a => exact ⟨a, rfl, h⟩

/-- Inversion of a successful `data` run into its intermediate steps. -/
theorem data_ok_destruct (s : ℕ → ℕ) (manifest : Manifest) (train_size : ℕ)
    (val_size : Option ℕ) (test_size : Option ℤ) (b : Bundle)
    (h : data s manifest train_size val_size test_size = Except.ok b) :
    ∃ (trainPT valPT : ℕ) (testPT : ℤ) (st : St) (c : ℕ) (stv : List String),
      exactDivNat train_size manifest.length = Except.ok trainPT ∧
      (if valPosOf val_size then exactDivNat (val_size.getD 0) manifest.length
        else pure 0) = Except.ok valPT ∧
      (match test_size with
        | some t => if t ≠ 0 then exactDivInt t manifest.length else pure (-1 : ℤ)
        | none => pure (-1 : ℤ)) = Except.ok testPT ∧
      manifest.foldlM (fun acc entry =>
          processType s (valPosOf val_size) test_size trainPT valPT testPT acc entry.1 entry.2)
        (initSt (valPosOf val_size), 0) = Except.ok (st, c) ∧
      st.stVal = some stv ∧ b = assembleBundle (valPosOf val_size) st stv := by
  simp only [data] at h
  obtain ⟨trainPT, h1, h⟩ := exbind_ok h
  obtain ⟨valPT, h2, h⟩ := exbind_ok h
  obtain ⟨testPT, h3, h⟩ := exbind_ok h
  obtain ⟨p, h4, h⟩ := exbind_ok h
  cases hstv : p.1.stVal with
  | none =>
      rw [hstv] at h
      exact Except.noConfusion h
  | some stv =>
      rw [hstv] at h
      have h' : Except.ok (assembleBundle (valPosOf val_size) p.1 stv) = Except.ok b := h
      refine ⟨trainPT, valPT, testPT, p.1, p.2, stv, h1, h2, h3, ?_, hstv,
        (Except.ok.inj h').symm⟩
      rw [Prod.mk.eta]
      exact h4

/-- C10: whenever `acc_grid` succeeds, `err_grid` on the same input succeeds
with the elementwise complement `1 - acc` (defined cells only; NaN cells
stay NaN) and propagates exactly the correct-count and trial-count arrays
returned by `acc_grid`. -/
theorem err_grid_complement (stim_fnames : List String) (y_true y_pred : List ℤ)
    (char_grids : List CharGrid) (stim_fnames_meta : List String)
    (return_counts : Bool)
    (accg : List (List (Option ℚ))) (cnts : Option (List (List ℕ) × List (List ℕ)))
    (h : acc_grid stim_fnames y_true y_pred char_grids stim_fnames_meta return_counts =
      Except.ok (accg, cnts)) :
    err_grid stim_fnames y_true y_pred char_grids stim_fnames_meta return_counts =
      Except.ok (accg.map (List.map (Option.map (fun a => 1 - a))), cnts) ∧
    ∀ r c a, (accg.get? r).bind (fun row => row.get? c) = some (some a) →
      ((accg.map (List.map (Option.map (fun a => 1 - a)))).get? r).bind
        (fun row => row.get? c) = some (some (1 - a)) := by
  constructor
  · simp only [err_grid]
    rw [h, Except.ok_bind]
    rfl
  · intro r c a hra
    cases hrow : accg.get? r with
    | none =>
        rw [hrow] at hra
        exact Option.noConfusion hra
    | some row =>
        rw [hrow] at hra
        have hrc : row.get? c = some (some a) := hra
        rw [List.get?_map, hrow]
        show (List.map (Option.map fun a => 1 - a) row).get? c = some (some (1 - a))
        rw [List.get?_map, hrc]
        rfl

/-- C10 (witness): the complement theorem applied at a concrete input on
which `acc_grid` succeeds, with one defined and one NaN cell. -/
theorem err_grid_complement_witness :
    acc_grid ["f1", "f2"] [1, 0] [1, 1] [[["t", ""]], [["d", ""]]] ["f1", "f2"] true =
      Except.ok ([[some (1/2 : ℚ), none]], some ([[1, 0]], [[2, 0]])) ∧
    (err_grid ["f1", "f2"] [1, 0] [1, 1] [[["t", ""]], [["d", ""]]] ["f1", "f2"] true =
      Except.ok (([[some (1/2 : ℚ), none]] : List (List (Option ℚ))).map
          (List.map (Option.map (fun a => 1 - a))),
        some ([[1, 0]], [[2, 0]])) ∧
     ∀ r c a, (([[some (1/2 : ℚ), none]] : List (List (Option ℚ))).get? r).bind
          (fun row => row.get? c) = some (some a) →
        ((([[some (1/2 : ℚ), none]] : List (List (Option ℚ))).map
            (List.map (Option.map (fun a => 1 - a)))).get? r).bind
          (fun row => row.get? c) = some (some (1 - a))) := by
  have hacc : acc_grid ["f1", "f2"] [1, 0] [1, 1]
      [[["t", ""]], [["d", ""]]] ["f1", "f2"] true =
      Except.ok ([[some (1/2 : ℚ), none]], some ([[1, 0]], [[2, 0]])) := by
    simp [acc_grid, matchIdxs, zerosLike, bumpGrid, gridShape, List.foldlM,
      List.enum, List.enumFrom, List.filter]
    norm_num [pure, Except.pure]
  exact ⟨hacc, err_grid_complement _ _ _ _ _ _ _ _ hacc⟩

theorem foldlM_cons {α β : Type} (f : β → α → Except String β) (b : β)
    (a : α) (l : List α) :
    List.foldlM f b (a :: l) = f b a >>= fun x => List.foldlM f x l := rfl

theorem foldlM_nil {α β : Type} (f : β → α → Except String β) (b : β) :
    List.foldlM f b [] = pure b := rfl

theorem presUse_cons (pe : String × List String) (rest : PresenceList) :
    presUse (pe :: rest) = pe.2.length + presUse rest := by
  simp [presUse]

theorem ssUse_cons (ss : ℕ × PresenceList) (rest : SetSizeList) :
    ssUse (ss :: rest) = presUse ss.2 + ssUse rest := by
  simp [ssUse]

theorem streamUse_cons (t : String × SetSizeList) (rest : Manifest) :
    streamUse (t :: rest) = ssUse t.2 + streamUse rest := by
  simp [streamUse]

theorem shuffleGo_congr (s1 s2 : ℕ → ℕ) :
    ∀ (fuel c : ℕ) (l : List String),
      (∀ i, c ≤ i → i < c + fuel → s1 i = s2 i) →
      shuffleGo s1 fuel c l = shuffleGo s2 fuel c l := by
  intro fuel
  induction fuel with
  | zero => intro c l _; rfl
  | succ fuel ih =>
      intro c l h
      have hs : s1 c = s2 c := h c le_rfl (by omega)
      simp only [shuffleGo, hs]
      cases l.get? (s2 c % l.length) with
      | none => rfl
      | some a =>
          rw [ih (c + 1) (l.eraseIdx (s2 c % l.length))
            (fun i h1 h2 => h i (by omega) (by omega))]

theorem sampleLeaf_congr (s1 s2 : ℕ → ℕ) (c tpss vpss : ℕ) (tss : ℤ)
    (pool : List String)
    (h : ∀ i, c ≤ i → i < c + pool.length → s1 i = s2 i) :
    sampleLeaf s1 c tpss vpss tss pool = sampleLeaf s2 c tpss vpss tss pool := by
  unfold sampleLeaf shuffleStream
  rw [shuffleGo_congr s1 s2 pool.length c pool h]

theorem sampleLeaf_ok_counter (s : ℕ → ℕ) (c tpss vpss : ℕ) (tss : ℤ)
    (pool : List String) (lc : LeafOut × ℕ)
    (h : sampleLeaf s c tpss vpss tss pool = Except.ok lc) :
    lc.2 = c + pool.length := by
  unfold sampleLeaf at h
  by_cases hb : totalSize tpss vpss tss > (pool.length : ℤ)
  · rw [if_pos hb] at h
    exact Except.noConfusion h
  rw [if_neg hb] at h
  by_cases h0 : tpss = 0
  · rw [if_pos h0] at h
    exact Except.noConfusion h
  rw [if_neg h0] at h
  by_cases hp : tss > 0
  · rw [if_pos hp] at h
    exact (congrArg Prod.snd (Except.ok.inj h)).symm
  rw [if_neg hp] at h
  by_cases hm1 : tss = -1
  · rw [if_pos hm1] at h
    by_cases hnil : (((shuffleStream s c pool).reverse).drop tpss).drop vpss = []
    · rw [if_pos hnil] at h
      exact Except.noConfusion h
    · rw [if_neg hnil] at h
      exact (congrArg Prod.snd (Except.ok.inj h)).symm
  · rw [if_neg hm1] at h
    exact Except.noConfusion h

theorem leafStep_congr (s1 s2 : ℕ → ℕ) (tpss vpss : ℕ) (tss : ℤ)
    (stimType : String) (setSize : ℕ) (q : St × ℕ) (pe : String × List String)
    (h : ∀ i, q.2 ≤ i → i < q.2 + pe.2.length → s1 i = s2 i) :
    leafStep s1 tpss vpss tss stimType setSize q pe =
    leafStep s2 tpss vpss tss stimType setSize q pe := by
  unfold leafStep
  rw [sampleLeaf_congr s1 s2 q.2 tpss vpss tss pe.2 h]

theorem leafStep_ok_counter (s : ℕ → ℕ) (tpss vpss : ℕ) (tss : ℤ)
    (stimType : String) (setSize : ℕ) (q : St × ℕ) (pe : String × List String)
    (st' : St) (c' : ℕ)
    (h : leafStep s tpss vpss tss stimType setSize q pe = Except.ok (st', c')) :
    c' = q.2 + pe.2.length := by
  unfold leafStep at h
  obtain ⟨lc, h1, h2⟩ := exbind_ok h
  have hc := sampleLeaf_ok_counter s q.2 tpss vpss tss pe.2 lc h1
  have h3 := Except.ok.inj h2
  have := congrArg Prod.snd h3
  simp only at this
  omega

theorem presFold_spec (s1 s2 : ℕ → ℕ) (tpss vpss : ℕ) (tss : ℤ)
    (stimType : String) (setSize : ℕ) :
    ∀ (pl : PresenceList) (st : St) (c : ℕ),
      (∀ i, c ≤ i → i < c + presUse pl → s1 i = s2 i) →
      (pl.foldlM (leafStep s1 tpss vpss tss stimType setSize) (st, c) =
        pl.foldlM (leafStep s2 tpss vpss tss stimType setSize) (st, c)) ∧
      (∀ st' c', pl.foldlM (leafStep s1 tpss vpss tss stimType setSize) (st, c) =
          Except.ok (st', c') → c' = c + presUse pl) := by
  intro pl
  induction pl with
  | nil =>
      intro st c _
      refine ⟨rfl, fun st' c' hh => ?_⟩
      have := Except.ok.inj hh
      have hc := congrArg Prod.snd this
      simp only at hc
      simp [presUse, ← hc]
  | cons pe rest ih =>
      intro st c h
      have hpe : ∀ i, c ≤ i → i < c + pe.2.length → s1 i = s2 i :=
        fun i h1 h2 => h i h1 (by rw [presUse_cons]; omega)
      have hstep := leafStep_congr s1 s2 tpss vpss tss stimType setSize (st, c) pe hpe
      constructor
      · rw [foldlM_cons, foldlM_cons, hstep]
        cases hres : leafStep s2 tpss vpss tss stimType setSize (st, c) pe with
        | error e => rfl
        | ok p2 =>
            rw [Except.ok_bind, Except.ok_bind]
            have hc2 : p2.2 = c + pe.2.length := by
              have : leafStep s2 tpss vpss tss stimType setSize (st, c) pe =
                  Except.ok (p2.1, p2.2) := by rw [Prod.mk.eta]; exact hres
              exact leafStep_ok_counter s2 tpss vpss tss stimType setSize (st, c) pe
                p2.1 p2.2 this
            have hrec := (ih p2.1 p2.2 (fun i h1 h2 => by
              rw [hc2] at h1 h2
              exact h i (by omega) (by rw [presUse_cons]; omega))).1
            rw [← Prod.mk.eta (p := p2)]
            exact hrec
      · intro st' c' hh
        rw [foldlM_cons] at hh
        obtain ⟨p2, h1, h2⟩ := exbind_ok hh
        have hc2 : p2.2 = c + pe.2.length := by
          have : leafStep s1 tpss vpss tss stimType setSize (st, c) pe =
              Except.ok (p2.1, p2.2) := by rw [Prod.mk.eta]; exact h1
          exact leafStep_ok_counter s1 tpss vpss tss stimType setSize (st, c) pe
            p2.1 p2.2 this
        have hrec := (ih p2.1 p2.2 (fun i ha hb => by
          rw [hc2] at ha hb
          exact h i (by omega) (by rw [presUse_cons]; omega))).2 st' c' (by
            rw [Prod.mk.eta]; exact h2)
        rw [presUse_cons]
        omega

theorem ssFold_spec (s1 s2 : ℕ → ℕ) (tpss vpss : ℕ) (tss : ℤ)
    (stimType : String) :
    ∀ (sss : SetSizeList) (st : St) (c : ℕ),
      (∀ i, c ≤ i → i < c + ssUse sss → s1 i = s2 i) →
      (sss.foldlM (fun (p : St × ℕ) (ssEntry : ℕ × PresenceList) =>
          ssEntry.2.foldlM (leafStep s1 tpss vpss tss stimType ssEntry.1) p) (st, c) =
        sss.foldlM (fun (p : St × ℕ) (ssEntry : ℕ × PresenceList) =>
          ssEntry.2.foldlM (leafStep s2 tpss vpss tss stimType ssEntry.1) p) (st, c)) ∧
      (∀ st' c', sss.foldlM (fun (p : St × ℕ) (ssEntry : ℕ × PresenceList) =>
          ssEntry.2.foldlM (leafStep s1 tpss vpss tss stimType ssEntry.1) p) (st, c) =
          Except.ok (st', c') → c' = c + ssUse sss) := by
  intro sss
  induction sss with
  | nil =>
      intro st c _
      refine ⟨rfl, fun st' c' hh => ?_⟩
      have := Except.ok.inj hh
      have hc := congrArg Prod.snd this
      simp only at hc
      simp [ssUse, ← hc]
  | cons ss rest ih =>
      intro st c h
      have hss : ∀ i, c ≤ i → i < c + presUse ss.2 → s1 i = s2 i :=
        fun i h1 h2 => h i h1 (by rw [ssUse_cons]; omega)
      obtain ⟨hpeq, hpcnt⟩ := presFold_spec s1 s2 tpss vpss tss stimType ss.1 ss.2 st c hss
      constructor
      · rw [foldlM_cons, foldlM_cons, hpeq]
        cases hres : ss.2.foldlM (leafStep s2 tpss vpss tss stimType ss.1) (st, c) with
        | error e => rfl
        | ok p2 =>
            rw [Except.ok_bind, Except.ok_bind]
            have hc2 : p2.2 = c + presUse ss.2 := by
              apply hpcnt p2.1 p2.2
              rw [hpeq, Prod.mk.eta]
              exact hres
            have hrec := (ih p2.1 p2.2 (fun i h1 h2 => by
              rw [hc2] at h1 h2
              exact h i (by omega) (by rw [ssUse_cons]; omega))).1
            rw [← Prod.mk.eta (p := p2)]
            exact hrec
      · intro st' c' hh
        rw [foldlM_cons] at hh
        obtain ⟨p2, h1, h2⟩ := exbind_ok hh
        have hc2 : p2.2 = c + presUse ss.2 := by
          apply hpcnt p2.1 p2.2
          rw [Prod.mk.eta]
          exact h1
        have hrec := (ih p2.1 p2.2 (fun i ha hb => by
          rw [hc2] at ha hb
          exact h i (by omega) (by rw [ssUse_cons]; omega))).2 st' c' (by
            rw [Prod.mk.eta]; exact h2)
        rw [ssUse_cons]
        omega

theorem bind_congr_ok {α β : Type} {x : Except String α} {f g : α → Except String β}
    (h : ∀ a, x = Except.ok a → f a = g a) : (x >>= f) = (x >>= g) := by
  cases x with
  | error e => rfl
  | ok a => exact h a rfl

theorem processType_spec (s1 s2 : ℕ → ℕ) (valPos : Bool) (test_size : Option ℤ)
    (trainPT valPT : ℕ) (testPT : ℤ) (stimType : String) (sss : SetSizeList)
    (st : St) (c : ℕ)
    (h : ∀ i, c ≤ i → i < c + ssUse sss → s1 i = s2 i) :
    (processType s1 valPos test_size trainPT valPT testPT (st, c) stimType sss =
      processType s2 valPos test_size trainPT valPT testPT (st, c) stimType sss) ∧
    (∀ st' c', processType s1 valPos test_size trainPT valPT testPT (st, c) stimType sss =
        Except.ok (st', c') → c' = c + ssUse sss) := by
  constructor
  · simp only [processType]
    refine bind_congr_ok (fun tpss _ => ?_)
    refine bind_congr_ok (fun vpss _ => ?_)
    refine bind_congr_ok (fun tss _ => ?_)
    exact (ssFold_spec s1 s2 tpss vpss tss stimType sss _ c h).1
  · intro st' c' hh
    simp only [processType] at hh
    obtain ⟨tpss, h1, hh⟩ := exbind_ok hh
    obtain ⟨vpss, h2, hh⟩ := exbind_ok hh
    obtain ⟨tss, h3, hh⟩ := exbind_ok hh
    exact (ssFold_spec s1 s1 tpss vpss tss stimType sss _ c (fun i _ _ => rfl)).2 st' c' hh

theorem manifestFold_spec (s1 s2 : ℕ → ℕ) (valPos : Bool) (test_size : Option ℤ)
    (trainPT valPT : ℕ) (testPT : ℤ) :
    ∀ (m : Manifest) (st : St) (c : ℕ),
      (∀ i, c ≤ i → i < c + streamUse m → s1 i = s2 i) →
      (m.foldlM (fun acc entry =>
          processType s1 valPos test_size trainPT valPT testPT acc entry.1 entry.2) (st, c) =
        m.foldlM (fun acc entry =>
          processType s2 valPos test_size trainPT valPT testPT acc entry.1 entry.2) (st, c)) := by
  intro m
  induction m with
  | nil => intro st c _; rfl
  | cons t rest ih =>
      intro st c h
      have ht : ∀ i, c ≤ i → i < c + ssUse t.2 → s1 i = s2 i :=
        fun i h1 h2 => h i h1 (by rw [streamUse_cons]; omega)
      obtain ⟨hteq, htcnt⟩ := processType_spec s1 s2 valPos test_size trainPT valPT testPT
        t.1 t.2 st c ht
      rw [foldlM_cons, foldlM_cons, hteq]
      cases hres : processType s2 valPos test_size trainPT valPT testPT (st, c) t.1 t.2 with
      | error e => rfl
      | ok p2 =>
          rw [Except.ok_bind, Except.ok_bind]
          have hc2 : p2.2 = c + ssUse t.2 := by
            apply htcnt p2.1 p2.2
            rw [hteq, Prod.mk.eta]
            exact hres
          have hrec := ih p2.1 p2.2 (fun i ha hb => by
            rw [hc2] at ha hb
            exact h i (by omega) (by rw [streamUse_cons]; omega))
          rw [← Prod.mk.eta (p := p2)]
          exact hrec

theorem exactDivNat_ok {a b q : ℕ} (h : exactDivNat a b = Except.ok q) :
    b ≠ 0 ∧ a = b * q := by
  unfold exactDivNat at h
  by_cases hc : b ≠ 0 ∧ a % b = 0
  · rw [if_pos hc] at h
    have hq := Except.ok.inj h
    exact ⟨hc.1, by rw [← hq]; exact (Nat.div_mul_cancel (Nat.dvd_of_mod_eq_zero hc.2)).symm.trans (Nat.mul_comm _ _)⟩
  · rw [if_neg hc] at h
    exact Except.noConfusion h

theorem exactDivNat_ok_of_dvd {a b : ℕ} (hb : b ≠ 0) (hdvd : b ∣ a) :
    exactDivNat a b = Except.ok (a / b) := by
  unfold exactDivNat
  rw [if_pos ⟨hb, Nat.dvd_iff_mod_eq_zero.mp hdvd⟩]
  rfl

theorem exactDivInt_ok {a : ℤ} {b : ℕ} {q : ℤ} (h : exactDivInt a b = Except.ok q) :
    b ≠ 0 ∧ a = b * q := by
  unfold exactDivInt at h
  by_cases hc : b ≠ 0 ∧ a % (b : ℤ) = 0
  · rw [if_pos hc] at h
    have hq := Except.ok.inj h
    refine ⟨hc.1, ?_⟩
    rw [← hq]
    exact (Int.ediv_mul_cancel (Int.dvd_of_emod_eq_zero hc.2)).symm.trans (Int.mul_comm _ _)
  · rw [if_neg hc] at h
    exact Except.noConfusion h

theorem exactDivInt_ok_of_dvd {a : ℤ} {b : ℕ} (hb : b ≠ 0) (hdvd : (b : ℤ) ∣ a) :
    exactDivInt a b = Except.ok (a / (b : ℤ)) := by
  unfold exactDivInt
  rw [if_pos ⟨hb, Int.emod_eq_zero_of_dvd hdvd⟩]
  rfl

theorem cons_get_eraseIdx_perm :
    ∀ (l : List String) (i : ℕ) (h : i < l.length),
      (l.get ⟨i, h⟩ :: l.eraseIdx i).Perm l := by
  intro l
  induction l with
  | nil => intro i h; simp at h
  | cons a t ih =>
      intro i h
      cases i with
      | zero => simp [List.eraseIdx]
      | succ i =>
          have hi : i < t.length := by simpa using h
          have hrec := ih i hi
          show (t.get ⟨i, hi⟩ :: a :: t.eraseIdx i).Perm (a :: t)
          exact (List.Perm.swap a (t.get ⟨i, hi⟩) (t.eraseIdx i)).trans (hrec.cons a)

theorem shuffleGo_perm (s : ℕ → ℕ) :
    ∀ (fuel c : ℕ) (l : List String), fuel = l.length →
      (shuffleGo s fuel c l).Perm l := by
  intro fuel
  induction fuel with
  | zero =>
      intro c l h
      rw [List.length_eq_zero.mp h.symm]
      rfl
  | succ fuel ih =>
      intro c l h
      have hne : l.length ≠ 0 := by omega
      have hidx : s c % l.length < l.length := Nat.mod_lt _ (Nat.pos_of_ne_zero hne)
      have hget : l.get? (s c % l.length) = some (l.get ⟨s c % l.length, hidx⟩) :=
        List.get?_eq_get hidx
      simp only [shuffleGo, hget]
      have hlen : fuel = (l.eraseIdx (s c % l.length)).length := by
        rw [List.length_eraseIdx_of_lt hidx]
        omega
      exact ((ih (c + 1) _ hlen).cons _).trans (cons_get_eraseIdx_perm l _ hidx)

theorem shuffleStream_perm (s : ℕ → ℕ) (c : ℕ) (l : List String) :
    (shuffleStream s c l).Perm l :=
  shuffleGo_perm s l.length c l rfl

theorem totalSize_eq (tpss vpss : ℕ) (tss : ℤ) (hshape : tss = -1 ∨ 0 < tss) :
    totalSize tpss vpss tss =
      (tpss : ℤ) + (vpss : ℤ) + (if 0 < tss then tss else 0) := by
  unfold totalSize
  have h1 : (if (tpss : ℤ) ≠ 0 ∧ (tpss : ℤ) ≠ -1 then (tpss : ℤ) else 0) = (tpss : ℤ) := by
    by_cases h : (tpss : ℤ) = 0
    · simp [h]
    · rw [if_pos ⟨h, by omega⟩]
  have h2 : (if (vpss : ℤ) ≠ 0 ∧ (vpss : ℤ) ≠ -1 then (vpss : ℤ) else 0) = (vpss : ℤ) := by
    by_cases h : (vpss : ℤ) = 0
    · simp [h]
    · rw [if_pos ⟨h, by omega⟩]
  rw [h1, h2]
  rcases hshape with h | h
  · rw [h]; norm_num
  · rw [if_pos ⟨by omega, by omega⟩, if_pos h]

theorem sampleLeaf_ok_of (s : ℕ → ℕ) (c : ℕ) (tpss vpss : ℕ) (tss : ℤ)
    (pool : List String) (hshape : tss = -1 ∨ 0 < tss)
    (htp : 0 < tpss)
    (hsize : tpss + vpss + (if 0 < tss then tss.toNat else 0) ≤ pool.length)
    (hrem : tss = -1 → tpss + vpss < pool.length) :
    ∃ lo : LeafOut,
      sampleLeaf s c tpss vpss tss pool = Except.ok (lo, c + pool.length) ∧
      leafRel tpss vpss tss lo pool := by
  have hperm : (shuffleStream s c pool).Perm pool := shuffleStream_perm s c pool
  have hlen2 : (shuffleStream s c pool).length = pool.length := hperm.length_eq
  have hchk : ¬ totalSize tpss vpss tss > (pool.length : ℤ) := by
    rw [totalSize_eq tpss vpss tss hshape]
    rcases hshape with h | h
    · rw [h] at hsize ⊢
      simp only [if_neg (by norm_num : ¬ (0:ℤ) < -1)] at hsize ⊢
      push_cast
      omega
    · rw [if_pos h] at hsize ⊢
      have : tss.toNat = tss := Int.toNat_of_nonneg (le_of_lt h)
      push_cast
      omega
  have htp0 : ¬ tpss = 0 := by omega
  have hback : ((shuffleStream s c pool).reverse).Perm pool :=
    ((shuffleStream s c pool).reverse_perm).trans hperm
  have e1 : (shuffleStream s c pool).reverse.take tpss ++
      ((shuffleStream s c pool).reverse.drop tpss) =
      (shuffleStream s c pool).reverse := List.take_append_drop _ _
  have e2 : ((shuffleStream s c pool).reverse.drop tpss).take vpss ++
      (((shuffleStream s c pool).reverse.drop tpss).drop vpss) =
      (shuffleStream s c pool).reverse.drop tpss := List.take_append_drop _ _
  rcases hshape with hm1 | hpos
  · have hnpos : ¬ tss > 0 := by omega
    rw [hm1] at hsize
    simp only [if_neg (by norm_num : ¬ (0:ℤ) < -1), add_zero] at hsize
    have hstrict := hrem hm1
    have hr2ne : (((shuffleStream s c pool).reverse.drop tpss).drop vpss) ≠ [] := by
      intro hnil
      have hl0 := congrArg List.length hnil
      simp only [List.length_drop, List.length_reverse, hlen2, List.length_nil] at hl0
      omega
    refine ⟨⟨(shuffleStream s c pool).reverse.take tpss,
      ((shuffleStream s c pool).reverse.drop tpss).take vpss,
      (((shuffleStream s c pool).reverse.drop tpss).drop vpss).reverse⟩, ?_, ?_⟩
    · unfold sampleLeaf
      rw [if_neg hchk, if_neg htp0, if_neg hnpos, if_pos hm1, if_neg hr2ne]
    · refine ⟨?_, ?_, ?_, ?_, ?_⟩
      · simp only [List.length_take, List.length_reverse, hlen2]
        omega
      · simp only [List.length_take, List.length_drop, List.length_reverse, hlen2]
        omega
      · intro hcon
        omega
      · intro _
        simp only [List.length_reverse, List.length_drop, hlen2]
      · refine ⟨[], ?_⟩
        rw [List.append_nil]
        have hstep : ((shuffleStream s c pool).reverse.take tpss ++
            (((shuffleStream s c pool).reverse.drop tpss).take vpss ++
              (((shuffleStream s c pool).reverse.drop tpss).drop vpss).reverse)).Perm
            ((shuffleStream s c pool).reverse.take tpss ++
            (((shuffleStream s c pool).reverse.drop tpss).take vpss ++
              (((shuffleStream s c pool).reverse.drop tpss).drop vpss))) :=
          List.Perm.append_left _ (List.Perm.append_left _ (List.reverse_perm _))
        refine hstep.trans ?_
        rw [e2, e1]
        exact hback
  · have hnm1 : tss ≠ -1 := by omega
    rw [if_pos hpos] at hsize
    refine ⟨⟨(shuffleStream s c pool).reverse.take tpss,
      ((shuffleStream s c pool).reverse.drop tpss).take vpss,
      (((shuffleStream s c pool).reverse.drop tpss).drop vpss).take tss.toNat⟩, ?_, ?_⟩
    · unfold sampleLeaf
      rw [if_neg hchk, if_neg htp0, if_pos hpos]
    · refine ⟨?_, ?_, ?_, ?_, ?_⟩
      · simp only [List.length_take, List.length_reverse, hlen2]
        omega
      · simp only [List.length_take, List.length_drop, List.length_reverse, hlen2]
        omega
      · intro _
        simp only [List.length_take, List.length_drop, List.length_reverse, hlen2]
        omega
      · intro hcon
        exact absurd hcon hnm1
      · refine ⟨(((shuffleStream s c pool).reverse.drop tpss).drop vpss).drop tss.toNat, ?_⟩
        have e3 : (((shuffleStream s c pool).reverse.drop tpss).drop vpss).take tss.toNat ++
            ((((shuffleStream s c pool).reverse.drop tpss).drop vpss).drop tss.toNat) =
            ((shuffleStream s c pool).reverse.drop tpss).drop vpss :=
          List.take_append_drop _ _
        rw [e3, e2, e1]
        exact hback

theorem appendLeaf_fields (st : St) (stimType : String) (setSize : ℕ)
    (vpss : ℕ) (lo : LeafOut) :
    (appendLeaf st stimType setSize vpss lo).xTrain = st.xTrain ++ lo.trainL ∧
    (appendLeaf st stimType setSize vpss lo).xVal =
      (if 0 < vpss then st.xVal.map (· ++ lo.valL) else st.xVal) ∧
    (appendLeaf st stimType setSize vpss lo).xTest = st.xTest ++ lo.testL ∧
    (appendLeaf st stimType setSize vpss lo).stVal.isSome = st.stVal.isSome := by
  unfold appendLeaf
  by_cases h : vpss > 0 <;> simp [h, Option.isSome_map]

theorem option_map_append_nil (o : Option (List String)) :
    o.map (· ++ ([] : List String)) = o := by
  cases o <;> simp

theorem option_map_append_assoc (o : Option (List String)) (l1 l2 : List String) :
    (o.map (· ++ l1)).map (· ++ l2) = o.map (· ++ (l1 ++ l2)) := by
  cases o <;> simp

theorem presFold_build (s : ℕ → ℕ) (tpss vpss : ℕ) (tss : ℤ)
    (stimType : String) (setSize : ℕ) (hshape : tss = -1 ∨ 0 < tss)
    (htp : 0 < tpss) :
    ∀ (pl : PresenceList) (st : St) (c : ℕ),
      (∀ pe ∈ pl, tpss + vpss + (if 0 < tss then tss.toNat else 0) ≤ pe.2.length) →
      (tss = -1 → ∀ pe ∈ pl, tpss + vpss < pe.2.length) →
      ∃ (parts : List LeafOut) (st' : St) (c' : ℕ),
        pl.foldlM (leafStep s tpss vpss tss stimType setSize) (st, c) =
          Except.ok (st', c') ∧
        List.Forall₂ (fun lo (pe : String × List String) =>
          leafRel tpss vpss tss lo pe.2) parts pl ∧
        st'.xTrain = st.xTrain ++ (parts.map (·.trainL)).join ∧
        st'.xVal = st.xVal.map (· ++ (parts.map (·.valL)).join) ∧
        st'.xTest = st.xTest ++ (parts.map (·.testL)).join ∧
        st'.stVal.isSome = st.stVal.isSome := by
  intro pl
  induction pl with
  | nil =>
      intro st c _ _
      exact ⟨[], st, c, rfl, List.Forall₂.nil, by simp,
        (option_map_append_nil st.xVal).symm, by simp, rfl⟩
  | cons pe rest ih =>
      intro st c hsz hrem
      obtain ⟨lo, hleaf, hrel⟩ := sampleLeaf_ok_of s c tpss vpss tss pe.2 hshape htp
        (hsz pe (List.mem_cons_self pe rest))
        (fun hm1 => hrem hm1 pe (List.mem_cons_self pe rest))
      obtain ⟨parts, st', c', hfold, hfa, hxt, hxv, hxe, hsv⟩ :=
        ih (appendLeaf st stimType setSize vpss lo) (c + pe.2.length)
          (fun q hq => hsz q (List.mem_cons_of_mem pe hq))
          (fun hm1 q hq => hrem hm1 q (List.mem_cons_of_mem pe hq))
      obtain ⟨haT, haV, haE, haS⟩ := appendLeaf_fields st stimType setSize vpss lo
      refine ⟨lo :: parts, st', c', ?_, List.Forall₂.cons hrel hfa, ?_, ?_, ?_, ?_⟩
      · rw [foldlM_cons]
        have hstep : leafStep s tpss vpss tss stimType setSize (st, c) pe =
            Except.ok (appendLeaf st stimType setSize vpss lo, c + pe.2.length) := by
          unfold leafStep
          rw [hleaf]
          rfl
        rw [hstep, Except.ok_bind]
        exact hfold
      · rw [hxt, haT]
        simp [List.append_assoc]
      · rw [hxv, haV]
        by_cases hv : 0 < vpss
        · rw [if_pos hv, option_map_append_assoc]
          simp
        · rw [if_neg hv]
          have hnil : lo.valL = [] :=
            List.length_eq_zero.mp (by rw [hrel.2.1]; omega)
          simp [hnil]
      · rw [hxe, haE]
        simp [List.append_assoc]
      · rw [hsv, haS]

theorem ssFold_build (s : ℕ → ℕ) (tpss vpss : ℕ) (tss : ℤ)
    (stimType : String) (hshape : tss = -1 ∨ 0 < tss)
    (htp : 0 < tpss) :
    ∀ (sss : SetSizeList) (st : St) (c : ℕ),
      (∀ ss ∈ sss, ∀ pe ∈ ss.2,
        tpss + vpss + (if 0 < tss then tss.toNat else 0) ≤ pe.2.length) →
      (tss = -1 → ∀ ss ∈ sss, ∀ pe ∈ ss.2, tpss + vpss < pe.2.length) →
      ∃ (parts : List LeafOut) (st' : St) (c' : ℕ),
        sss.foldlM (fun (p : St × ℕ) (ssEntry : ℕ × PresenceList) =>
          ssEntry.2.foldlM (leafStep s tpss vpss tss stimType ssEntry.1) p) (st, c) =
          Except.ok (st', c') ∧
        List.Forall₂ (fun lo (pe : String × List String) =>
          leafRel tpss vpss tss lo pe.2) parts ((sss.map (fun ss => ss.2)).join) ∧
        st'.xTrain = st.xTrain ++ (parts.map (·.trainL)).join ∧
        st'.xVal = st.xVal.map (· ++ (parts.map (·.valL)).join) ∧
        st'.xTest = st.xTest ++ (parts.map (·.testL)).join ∧
        st'.stVal.isSome = st.stVal.isSome := by
  intro sss
  induction sss with
  | nil =>
      intro st c _ _
      exact ⟨[], st, c, rfl, by simp, by simp,
        (option_map_append_nil st.xVal).symm, by simp, rfl⟩
  | cons ss rest ih =>
      intro st c hsz hrem
      obtain ⟨parts1, st1, c1, hfold1, hfa1, hxt1, hxv1, hxe1, hsv1⟩ :=
        presFold_build s tpss vpss tss stimType ss.1 hshape htp ss.2 st c
          (fun pe hpe => hsz ss (List.mem_cons_self ss rest) pe hpe)
          (fun hm1 pe hpe => hrem hm1 ss (List.mem_cons_self ss rest) pe hpe)
      obtain ⟨parts2, st', c', hfold2, hfa2, hxt2, hxv2, hxe2, hsv2⟩ :=
        ih st1 c1 (fun q hq pe hpe => hsz q (List.mem_cons_of_mem ss hq) pe hpe)
          (fun hm1 q hq pe hpe => hrem hm1 q (List.mem_cons_of_mem ss hq) pe hpe)
      refine ⟨parts1 ++ parts2, st', c', ?_, ?_, ?_, ?_, ?_, ?_⟩
      · rw [foldlM_cons, hfold1, Except.ok_bind]
        exact hfold2
      · simp only [List.map_cons, List.join_cons]
        exact List.rel_append hfa1 hfa2
      · rw [hxt2, hxt1]
        simp [List.append_assoc]
      · rw [hxv2, hxv1, option_map_append_assoc]
        simp
      · rw [hxe2, hxe1]
        simp [List.append_assoc]
      · rw [hsv2, hsv1]

theorem processType_build (s : ℕ → ℕ) (valPos : Bool) (test_size : Option ℤ)
    (trainPT valPT : ℕ) (testPT : ℤ) (stimType : String) (sss : SetSizeList)
    (st : St) (c : ℕ) (tpss vpss : ℕ) (tssv : ℤ)
    (hd1 : exactDivNat trainPT (sss.length * 2) = Except.ok tpss)
    (hd2 : (if valPos then exactDivNat valPT (sss.length * 2) else pure 0) =
      Except.ok vpss)
    (hd3 : (match test_size with
      | none => pure (-1 : ℤ)
      | some t =>
          if t = -1 then pure (-1 : ℤ)
          else if t > 0 then exactDivInt testPT (sss.length * 2)
          else Except.error "ValueError: invalid test size") = Except.ok tssv)
    (hshape : tssv = -1 ∨ 0 < tssv)
    (htp : 0 < tpss)
    (hsz : ∀ ss ∈ sss, ∀ pe ∈ ss.2,
      tpss + vpss + (if 0 < tssv then tssv.toNat else 0) ≤ pe.2.length)
    (hrem : tssv = -1 → ∀ ss ∈ sss, ∀ pe ∈ ss.2, tpss + vpss < pe.2.length) :
    ∃ (parts : List LeafOut) (st' : St) (c' : ℕ),
      processType s valPos test_size trainPT valPT testPT (st, c) stimType sss =
        Except.ok (st', c') ∧
      List.Forall₂ (fun lo (pe : String × List String) =>
        leafRel tpss vpss tssv lo pe.2) parts ((sss.map (fun ss => ss.2)).join) ∧
      st'.xTrain = st.xTrain ++ (parts.map (·.trainL)).join ∧
      st'.xVal = st.xVal.map (· ++ (parts.map (·.valL)).join) ∧
      st'.xTest = st.xTest ++ (parts.map (·.testL)).join ∧
      st'.stVal.isSome = st.stVal.isSome := by
  obtain ⟨parts, st', c', hfold, hfa, h1, h2, h3, h4⟩ :=
    ssFold_build s tpss vpss tssv stimType hshape htp sss
      { st with catalog := st.catalog ++ [(stimType, sss.map (fun x => x.1))] } c hsz hrem
  refine ⟨parts, st', c', ?_, hfa, h1, h2, h3, h4⟩
  simp only [processType]
  have hlm : (List.map (fun (x : ℕ × PresenceList) => x.1) sss).length = sss.length :=
    List.length_map _ _
  rw [hlm, hd1, Except.ok_bind, hd2, Except.ok_bind, hd3, Except.ok_bind]
  exact hfold

theorem forall₂_spec_of_rel (tpss vpss : ℕ) (tssv : ℤ) (parts : List LeafOut)
    (sss : SetSizeList)
    (h : List.Forall₂ (fun lo (pe : String × List String) =>
      leafRel tpss vpss tssv lo pe.2) parts ((sss.map (fun ss => ss.2)).join)) :
    List.Forall₂ (fun lo (spec : ℕ × ℕ × ℤ × List String) =>
      leafRel spec.1 spec.2.1 spec.2.2.1 lo spec.2.2.2)
      parts ((sss.map (fun ss => ss.2.map (fun pe => (tpss, vpss, tssv, pe.2)))).join) := by
  have hjoin : (sss.map (fun ss => ss.2.map (fun pe => (tpss, vpss, tssv, pe.2)))).join =
      ((sss.map (fun ss => ss.2)).join).map
        (fun (pe : String × List String) => (tpss, vpss, tssv, pe.2)) := by
    rw [List.map_join, List.map_map]
    rfl
  rw [hjoin]
  exact List.forall₂_map_right_iff.mpr h

theorem manifestFold_build (s : ℕ → ℕ) (valPos : Bool) (test_size : Option ℤ)
    (trainPT valPT : ℕ) (testPT : ℤ)
    (hts : test_size = none ∨ test_size = some (-1) ∨
      ∃ tv : ℤ, test_size = some tv ∧ 0 < tv ∧ 0 < testPT)
    (htr : 0 < trainPT) :
    ∀ (m : Manifest) (st : St) (c : ℕ),
      (∀ t ∈ m, t.2 ≠ [] ∧
        (t.2.length * 2) ∣ trainPT ∧
        (valPos = true → (t.2.length * 2) ∣ valPT) ∧
        (∀ tv : ℤ, test_size = some tv → 0 < tv →
          ((t.2.length * 2 : ℕ) : ℤ) ∣ testPT) ∧
        (∀ ss ∈ t.2, ∀ pe ∈ ss.2,
          trainPT / (t.2.length * 2) +
            (if valPos then valPT / (t.2.length * 2) else 0) +
            testPerLeaf test_size testPT (t.2.length * 2) ≤ pe.2.length ∧
          ((test_size = none ∨ test_size = some (-1)) →
            trainPT / (t.2.length * 2) +
              (if valPos then valPT / (t.2.length * 2) else 0) < pe.2.length))) →
      ∃ (parts : List LeafOut) (st' : St) (c' : ℕ),
        m.foldlM (fun acc entry =>
          processType s valPos test_size trainPT valPT testPT acc entry.1 entry.2)
          (st, c) = Except.ok (st', c') ∧
        List.Forall₂ (fun lo (spec : ℕ × ℕ × ℤ × List String) =>
          leafRel spec.1 spec.2.1 spec.2.2.1 lo spec.2.2.2)
          parts (leafSpecs valPos test_size trainPT valPT testPT m) ∧
        st'.xTrain = st.xTrain ++ (parts.map (·.trainL)).join ∧
        st'.xVal = st.xVal.map (· ++ (parts.map (·.valL)).join) ∧
        st'.xTest = st.xTest ++ (parts.map (·.testL)).join ∧
        st'.stVal.isSome = st.stVal.isSome := by
  intro m
  induction m with
  | nil =>
      intro st c _
      exact ⟨[], st, c, rfl, by simp [leafSpecs], by simp,
        (option_map_append_nil st.xVal).symm, by simp, rfl⟩
  | cons t rest ih =>
      intro st c H
      obtain ⟨hne_t, hdt_t, hdv_t, hdtest_t, hsz_t⟩ := H t (List.mem_cons_self t rest)
      have hn0 : t.2.length * 2 ≠ 0 := by
        have := List.length_pos.mpr hne_t
        omega
      have hd1 : exactDivNat trainPT (t.2.length * 2) =
          Except.ok (trainPT / (t.2.length * 2)) := exactDivNat_ok_of_dvd hn0 hdt_t
      have hd2 : (if valPos then exactDivNat valPT (t.2.length * 2) else pure 0) =
          Except.ok (if valPos then valPT / (t.2.length * 2) else 0) := by
        by_cases hvp : valPos
        · rw [if_pos hvp, if_pos hvp]
          exact exactDivNat_ok_of_dvd hn0 (hdv_t hvp)
        · rw [if_neg hvp, if_neg hvp]
          rfl
      have hd3 : (match test_size with
          | none => pure (-1 : ℤ)
          | some tv =>
              if tv = -1 then pure (-1 : ℤ)
              else if tv > 0 then exactDivInt testPT (t.2.length * 2)
              else Except.error "ValueError: invalid test size") =
          Except.ok (testSpecOf test_size testPT (t.2.length * 2)) := by
        rcases hts with h | h | ⟨tv, htv, htvpos, hptpos⟩
        · rw [h]
          rfl
        · rw [h]
          rfl
        · rw [htv]
          have hne1 : ¬(tv = -1) := by omega
          simp only [testSpecOf, gt_iff_lt, if_neg hne1, if_pos htvpos]
          exact exactDivInt_ok_of_dvd hn0 (hdtest_t tv htv htvpos)
      have hshape : testSpecOf test_size testPT (t.2.length * 2) = -1 ∨
          0 < testSpecOf test_size testPT (t.2.length * 2) := by
        rcases hts with h | h | ⟨tv, htv, htvpos, hptpos⟩
        · rw [h]; exact Or.inl rfl
        · rw [h]; simp [testSpecOf]
        · rw [htv]
          right
          simp only [testSpecOf]
          rw [if_neg (by omega)]
          obtain ⟨q, hq⟩ := hdtest_t tv htv htvpos
          rw [hq, Int.mul_ediv_cancel_left _ (by exact_mod_cast hn0)]
          nlinarith [hq ▸ hptpos]
      have hsz' : ∀ ss ∈ t.2, ∀ pe ∈ ss.2,
          trainPT / (t.2.length * 2) +
            (if valPos then valPT / (t.2.length * 2) else 0) +
            (if 0 < testSpecOf test_size testPT (t.2.length * 2)
             then (testSpecOf test_size testPT (t.2.length * 2)).toNat else 0) ≤
            pe.2.length := by
        intro ss hss pe hpe
        have hb := (hsz_t ss hss pe hpe).1
        rcases hts with h | h | ⟨tv, htv, htvpos, hptpos⟩
        · subst h
          simpa [testSpecOf, testPerLeaf] using hb
        · subst h
          simpa [testSpecOf, testPerLeaf] using hb
        · subst htv
          have hne1 : ¬(tv = (-1 : ℤ)) := by omega
          simp only [testPerLeaf, if_neg hne1] at hb
          simp only [testSpecOf, if_neg hne1]
          have hq : 0 < testPT / ((t.2.length * 2 : ℕ) : ℤ) := by
            obtain ⟨q, hqq⟩ := hdtest_t tv rfl htvpos
            rw [hqq, Int.mul_ediv_cancel_left _ (by exact_mod_cast hn0)]
            nlinarith [hqq ▸ hptpos]
          rw [if_pos hq]
          exact hb
      have htp1 : 0 < trainPT / (t.2.length * 2) :=
        Nat.div_pos (Nat.le_of_dvd htr hdt_t) (by omega)
      have hrem1 : testSpecOf test_size testPT (t.2.length * 2) = -1 →
          ∀ ss ∈ t.2, ∀ pe ∈ ss.2,
            trainPT / (t.2.length * 2) +
              (if valPos then valPT / (t.2.length * 2) else 0) < pe.2.length := by
        intro hm1 ss hss pe hpe
        rcases hts with h | h | ⟨tv, htv, htvpos, hptpos⟩
        · exact (hsz_t ss hss pe hpe).2 (Or.inl h)
        · exact (hsz_t ss hss pe hpe).2 (Or.inr h)
        · exfalso
          rw [htv] at hm1
          simp only [testSpecOf, if_neg (by omega : ¬ tv = -1)] at hm1
          have hq : 0 < testPT / ((t.2.length * 2 : ℕ) : ℤ) := by
            obtain ⟨q, hqq⟩ := hdtest_t tv htv htvpos
            rw [hqq, Int.mul_ediv_cancel_left _ (by exact_mod_cast hn0)]
            nlinarith [hqq ▸ hptpos]
          omega
      obtain ⟨parts1, st1, c1, hfold1, hfa1, hxt1, hxv1, hxe1, hsv1⟩ :=
        processType_build s valPos test_size trainPT valPT testPT t.1 t.2 st c
          (trainPT / (t.2.length * 2)) (if valPos then valPT / (t.2.length * 2) else 0)
          (testSpecOf test_size testPT (t.2.length * 2)) hd1 hd2 hd3 hshape htp1 hsz' hrem1
      obtain ⟨parts2, st', c', hfold2, hfa2, hxt2, hxv2, hxe2, hsv2⟩ :=
        ih st1 c1 (fun q hq => H q (List.mem_cons_of_mem t hq))
      refine ⟨parts1 ++ parts2, st', c', ?_, ?_, ?_, ?_, ?_, ?_⟩
      · rw [foldlM_cons, hfold1, Except.ok_bind]
        exact hfold2
      · have hfa1' := forall₂_spec_of_rel (trainPT / (t.2.length * 2))
          (if valPos then valPT / (t.2.length * 2) else 0)
          (testSpecOf test_size testPT (t.2.length * 2)) parts1 t.2 hfa1
        simp only [leafSpecs, List.map_cons, List.join_cons]
        exact List.rel_append hfa1' hfa2
      · rw [hxt2, hxt1]
        simp [List.append_assoc]
      · rw [hxv2, hxv1, option_map_append_assoc]
        simp
      · rw [hxe2, hxe1]
        simp [List.append_assoc]
      · rw [hsv2, hsv1]

theorem data_build (s : ℕ → ℕ) (m : Manifest) (train_size v : ℕ)
    (test_size : Option ℤ)
    (hm : m ≠ []) (htr : 0 < train_size) (hv : 0 < v)
    (hdt : m.length ∣ train_size)
    (hdv : m.length ∣ v)
    (hts : test_size = none ∨
      ∃ tv : ℤ, test_size = some tv ∧ 0 < tv ∧ (m.length : ℤ) ∣ tv)
    (H : ∀ t ∈ m, t.2 ≠ [] ∧
      (t.2.length * 2) ∣ (train_size / m.length) ∧
      (t.2.length * 2) ∣ (v / m.length) ∧
      (∀ tv : ℤ, test_size = some tv → 0 < tv →
        ((t.2.length * 2 : ℕ) : ℤ) ∣ (tv / (m.length : ℤ))) ∧
      (∀ ss ∈ t.2, ∀ pe ∈ ss.2,
        train_size / m.length / (t.2.length * 2) + v / m.length / (t.2.length * 2) +
          testPerLeaf test_size (testPTOf test_size m.length) (t.2.length * 2) ≤
          pe.2.length ∧
        (test_size = none →
          train_size / m.length / (t.2.length * 2) + v / m.length / (t.2.length * 2) <
            pe.2.length))) :
    ∃ (b : Bundle) (parts : List LeafOut),
      data s m train_size (some v) test_size = Except.ok b ∧
      List.Forall₂ (fun lo (spec : ℕ × ℕ × ℤ × List String) =>
        leafRel spec.1 spec.2.1 spec.2.2.1 lo spec.2.2.2)
        parts (leafSpecs true test_size (train_size / m.length) (v / m.length)
          (testPTOf test_size m.length) m) ∧
      b.x_train = (parts.map (·.trainL)).join ∧
      b.x_val = some ((parts.map (·.valL)).join) ∧
      b.x_test = (parts.map (·.testL)).join := by
  have hm0 : m.length ≠ 0 := fun hc => hm (List.length_eq_zero.mp hc)
  have hvne : v ≠ 0 := by omega
  have hvp : valPosOf (some v) = true := by
    simp [valPosOf, hvne]
  have hts' : test_size = none ∨ test_size = some (-1) ∨
      ∃ tv : ℤ, test_size = some tv ∧ 0 < tv ∧ 0 < testPTOf test_size m.length := by
    rcases hts with h | ⟨tv, htv, htvpos, hdvd⟩
    · exact Or.inl h
    · right; right
      refine ⟨tv, htv, htvpos, ?_⟩
      rw [htv]
      simp only [testPTOf]
      obtain ⟨q, hq⟩ := hdvd
      rw [hq, Int.mul_ediv_cancel_left _ (by exact_mod_cast hm0)]
      nlinarith [hq ▸ htvpos]
  have H' : ∀ t ∈ m, t.2 ≠ [] ∧
      (t.2.length * 2) ∣ (train_size / m.length) ∧
      (valPosOf (some v) = true → (t.2.length * 2) ∣ (v / m.length)) ∧
      (∀ tv : ℤ, test_size = some tv → 0 < tv →
        ((t.2.length * 2 : ℕ) : ℤ) ∣ testPTOf test_size m.length) ∧
      (∀ ss ∈ t.2, ∀ pe ∈ ss.2,
        (train_size / m.length) / (t.2.length * 2) +
          (if valPosOf (some v) then (v / m.length) / (t.2.length * 2) else 0) +
          testPerLeaf test_size (testPTOf test_size m.length) (t.2.length * 2) ≤
          pe.2.length ∧
        ((test_size = none ∨ test_size = some (-1)) →
          (train_size / m.length) / (t.2.length * 2) +
            (if valPosOf (some v) then (v / m.length) / (t.2.length * 2) else 0) <
            pe.2.length)) := by
    intro t ht
    obtain ⟨h1, h2, h3, h4, h5⟩ := H t ht
    refine ⟨h1, h2, fun _ => h3, ?_, ?_⟩
    · intro tv htv htvpos
      rw [htv]
      simp only [testPTOf]
      exact h4 tv htv htvpos
    · intro ss hss pe hpe
      rw [if_pos hvp]
      refine ⟨(h5 ss hss pe hpe).1, ?_⟩
      intro hcase
      rcases hcase with hnone | hmone
      · exact (h5 ss hss pe hpe).2 hnone
      · exfalso
        rcases hts with h | ⟨tv, htv, htvpos, _⟩
        · rw [h] at hmone
          exact Option.noConfusion hmone
        · rw [htv] at hmone
          have := Option.some.inj hmone
          omega
  have htr0 : 0 < train_size / m.length :=
    Nat.div_pos (Nat.le_of_dvd htr hdt) (by omega)
  obtain ⟨parts, st', c', hfold, hfa, hxt, hxv, hxe, hsv⟩ :=
    manifestFold_build s (valPosOf (some v)) test_size (train_size / m.length)
      (v / m.length) (testPTOf test_size m.length) hts' htr0 m
      (initSt (valPosOf (some v))) 0 H'
  have hsv' : st'.stVal.isSome = true := by
    rw [hsv, hvp]
    rfl
  obtain ⟨stv, hstv⟩ := Option.isSome_iff_exists.mp hsv'
  refine ⟨assembleBundle (valPosOf (some v)) st' stv, parts, ?_, ?_, ?_, ?_, ?_⟩
  · simp only [data]
    have hd1 : exactDivNat train_size m.length = Except.ok (train_size / m.length) :=
      exactDivNat_ok_of_dvd hm0 hdt
    rw [hd1, Except.ok_bind]
    have hd2 : (if valPosOf (some v) = true then exactDivNat ((some v).getD 0) m.length
        else pure 0) = Except.ok (v / m.length) := by
      rw [if_pos hvp]
      exact exactDivNat_ok_of_dvd hm0 hdv
    rw [hd2, Except.ok_bind]
    have hd3 : (match test_size with
        | some t => if t ≠ 0 then exactDivInt t m.length else pure (-1 : ℤ)
        | none => pure (-1 : ℤ)) = Except.ok (testPTOf test_size m.length) := by
      rcases hts with h | ⟨tv, htv, htvpos, hdvd⟩
      · rw [h]
        rfl
      · rw [htv]
        simp only [testPTOf]
        rw [if_pos (by omega)]
        exact exactDivInt_ok_of_dvd hm0 hdvd
    rw [hd3, Except.ok_bind, hfold, Except.ok_bind, hstv]
    rfl
  · rwa [hvp] at hfa
  · rw [assembleBundle, hxt]
    simp [initSt]
  · rw [assembleBundle, hxv]
    simp [initSt, hvp]
  · rw [assembleBundle, hxe]
    simp [initSt]

theorem leafSpecs_cons (valPos : Bool) (ts : Option ℤ) (a b : ℕ) (c : ℤ)
    (t : String × SetSizeList) (rest : Manifest) :
    leafSpecs valPos ts a b c (t :: rest) =
      (t.2.map (fun ss => ss.2.map (fun pe =>
        (a / (t.2.length * 2), (if valPos then b / (t.2.length * 2) else 0),
         testSpecOf ts c (t.2.length * 2), pe.2)))).join ++
      leafSpecs valPos ts a b c rest := by
  simp [leafSpecs]

theorem join_eq_flatten {α : Type} (l : List (List α)) : l.join = l.flatten := rfl

theorem leafSpecs_pools (valPos : Bool) (ts : Option ℤ) (a b : ℕ) (c : ℤ) :
    ∀ m : Manifest,
      (leafSpecs valPos ts a b c m).map (fun spec => spec.2.2.2) = poolsOf m := by
  intro m
  induction m with
  | nil => rfl
  | cons t rest ih =>
      rw [leafSpecs_cons]
      simp only [poolsOf, List.map_cons, List.join_cons, List.map_append]
      rw [ih]
      simp only [poolsOf, List.map_join, List.map_map, join_eq_flatten]
      congr 1
      apply congrArg List.flatten
      apply List.map_congr_left
      intro ss _
      simp [List.map_map, Function.comp]

theorem forall₂_map_eq {α β γ : Type} (f : α → γ) (g : β → γ) :
    ∀ {l1 : List α} {l2 : List β},
      List.Forall₂ (fun a b => f a = g b) l1 l2 → l1.map f = l2.map g := by
  intro l1 l2 h
  induction h with
  | nil => rfl
  | cons hab _ ih => simp [hab, ih]

theorem sum_proj_specs (x y : ℕ) (z : ℤ) (π : ℕ × ℕ × ℤ × List String → ℕ) (k : ℕ)
    (hπ : ∀ l : List String, π (x, y, z, l) = k) :
    ∀ sss : SetSizeList,
      (((sss.map (fun ss => ss.2.map (fun pe =>
        (x, y, z, pe.2)))).join).map π).sum =
      (sss.map (fun ss => ss.2.length)).sum * k := by
  intro sss
  induction sss with
  | nil => simp
  | cons ss rest ih =>
      simp only [List.map_cons, List.join_cons, List.map_append, List.sum_append, ih]
      have hinner : ((ss.2.map (fun pe =>
          (x, y, z, pe.2))).map π).sum = ss.2.length * k := by
        rw [List.map_map]
        have hconst : (π ∘ fun pe => (x, y, z, pe.2)) =
            fun (pe : String × List String) => k := by
          funext pe
          exact hπ pe.2
        rw [hconst, List.map_const', List.sum_replicate, smul_eq_mul]
      rw [hinner, List.sum_cons]
      ring

theorem sum_const_of_all {α : Type} (f : α → ℕ) (k : ℕ) :
    ∀ l : List α, (∀ x ∈ l, f x = k) → (l.map f).sum = l.length * k := by
  intro l h
  induction l with
  | nil => simp
  | cons x rest ih =>
      simp only [List.map_cons, List.sum_cons, List.length_cons]
      rw [h x (List.mem_cons_self _ _), ih (fun y hy => h y (List.mem_cons_of_mem _ hy))]
      ring

theorem join_length_of_forall₂ {α β : Type} (f : α → List String) (g : β → ℕ) :
    ∀ {l1 : List α} {l2 : List β},
      List.Forall₂ (fun a b => (f a).length = g b) l1 l2 →
      ((l1.map f).join).length = (l2.map g).sum := by
  intro l1 l2 h
  induction h with
  | nil => rfl
  | cons hab _ ih =>
      simp only [List.map_cons, join_eq_flatten, List.flatten_cons, List.length_append,
        List.sum_cons]
      rw [hab, ← join_eq_flatten, ih]

theorem sum_leafSpecs_proj (valPos : Bool) (ts : Option ℤ) (a b : ℕ) (c : ℤ)
    (π : ℕ × ℕ × ℤ × List String → ℕ) (kfun : ℕ → ℕ)
    (hπ : ∀ (n : ℕ) (l : List String),
      π (a / n, (if valPos then b / n else 0), testSpecOf ts c n, l) = kfun n) :
    ∀ m : Manifest,
      ((leafSpecs valPos ts a b c m).map π).sum =
      (m.map (fun t => (t.2.map (fun ss => ss.2.length)).sum * kfun (t.2.length * 2))).sum := by
  intro m
  induction m with
  | nil => simp [leafSpecs]
  | cons t rest ih =>
      rw [leafSpecs_cons, List.map_append, List.sum_append, ih,
        sum_proj_specs (a / (t.2.length * 2))
          (if valPos then b / (t.2.length * 2) else 0)
          (testSpecOf ts c (t.2.length * 2)) π (kfun (t.2.length * 2))
          (hπ (t.2.length * 2)) t.2,
        List.map_cons, List.sum_cons]

theorem sum_type_totals (a : ℕ) (kfun : ℕ → ℕ) :
    ∀ m : Manifest,
      (∀ t ∈ m, ∀ ss ∈ t.2, ss.2.length = 2) →
      (∀ t ∈ m, (t.2.length * 2) * kfun (t.2.length * 2) = a) →
      (m.map (fun t => (t.2.map (fun ss => ss.2.length)).sum * kfun (t.2.length * 2))).sum =
        m.length * a := by
  intro m
  induction m with
  | nil => intro _ _; simp
  | cons t rest ih =>
      intro h2 hk
      rw [List.map_cons, List.sum_cons, List.length_cons,
        ih (fun u hu => h2 u (List.mem_cons_of_mem _ hu))
           (fun u hu => hk u (List.mem_cons_of_mem _ hu)),
        sum_const_of_all (fun ss => ss.2.length) 2 t.2 (h2 t (List.mem_cons_self _ _)),
        hk t (List.mem_cons_self _ _)]
      ring

/-- Over one successful decomposition, each split's draws are contained in
the pools, and with globally distinct filenames the three splits are
pairwise disjoint. -/
theorem splits_of_decomp :
    ∀ (parts : List LeafOut) (pools : List (List String)),
      List.Forall₂ (fun lo pool => ∃ rest : List String,
        (lo.trainL ++ (lo.valL ++ (lo.testL ++ rest))).Perm pool) parts pools →
      pools.join.Nodup →
      ((parts.map (·.trainL)).join ⊆ pools.join ∧
       (parts.map (·.valL)).join ⊆ pools.join ∧
       (parts.map (·.testL)).join ⊆ pools.join) ∧
      (List.Disjoint ((parts.map (·.trainL)).join) ((parts.map (·.valL)).join) ∧
       List.Disjoint ((parts.map (·.trainL)).join) ((parts.map (·.testL)).join) ∧
       List.Disjoint ((parts.map (·.valL)).join) ((parts.map (·.testL)).join)) := by
  intro parts pools hfa
  induction hfa with
  | nil =>
      intro _
      refine ⟨⟨?_, ?_, ?_⟩, ?_, ?_, ?_⟩ <;> simp [List.Disjoint]
  | cons hab hrest ih =>
      rename_i lo pool parts' pools'
      intro hnd
      rw [join_eq_flatten, List.flatten_cons] at hnd
      obtain ⟨hpnd, hjnd, hpdisj⟩ := List.nodup_append.mp hnd
      obtain ⟨⟨ihT, ihV, ihE⟩, ihTV, ihTE, ihVE⟩ := ih hjnd
      obtain ⟨restl, hperm⟩ := hab
      have hsubT : lo.trainL ⊆ pool := fun x hx =>
        hperm.subset (List.mem_append_left _ hx)
      have hsubV : lo.valL ⊆ pool := fun x hx =>
        hperm.subset (List.mem_append_right _ (List.mem_append_left _ hx))
      have hsubE : lo.testL ⊆ pool := fun x hx =>
        hperm.subset (List.mem_append_right _ (List.mem_append_right _
          (List.mem_append_left _ hx)))
      have hcnd : (lo.trainL ++ (lo.valL ++ (lo.testL ++ restl))).Nodup :=
        hperm.symm.nodup hpnd
      obtain ⟨-, hnd2, hd1⟩ := List.nodup_append.mp hcnd
      obtain ⟨-, hnd3, hd2⟩ := List.nodup_append.mp hnd2
      obtain ⟨-, -, -⟩ := List.nodup_append.mp hnd3
      have hdTV : List.Disjoint lo.trainL lo.valL := fun x hx1 hx2 =>
        hd1 hx1 (List.mem_append_left _ hx2)
      have hdTE : List.Disjoint lo.trainL lo.testL := fun x hx1 hx2 =>
        hd1 hx1 (List.mem_append_right _ (List.mem_append_left _ hx2))
      have hdVE : List.Disjoint lo.valL lo.testL := fun x hx1 hx2 =>
        hd2 hx1 (List.mem_append_left _ hx2)
      refine ⟨⟨?_, ?_, ?_⟩, ?_, ?_, ?_⟩
      · intro x hx
        rcases List.mem_append.mp hx with h | h
        · exact List.mem_append_left _ (hsubT h)
        · exact List.mem_append_right _ (ihT h)
      · intro x hx
        rcases List.mem_append.mp hx with h | h
        · exact List.mem_append_left _ (hsubV h)
        · exact List.mem_append_right _ (ihV h)
      · intro x hx
        rcases List.mem_append.mp hx with h | h
        · exact List.mem_append_left _ (hsubE h)
        · exact List.mem_append_right _ (ihE h)
      · intro x hx1 hx2
        rcases List.mem_append.mp hx1 with h1 | h1 <;>
          rcases List.mem_append.mp hx2 with h2 | h2
        · exact hdTV h1 h2
        · exact hpdisj (hsubT h1) (ihV h2)
        · exact hpdisj (hsubV h2) (ihT h1)
        · exact ihTV h1 h2
      · intro x hx1 hx2
        rcases List.mem_append.mp hx1 with h1 | h1 <;>
          rcases List.mem_append.mp hx2 with h2 | h2
        · exact hdTE h1 h2
        · exact hpdisj (hsubT h1) (ihE h2)
        · exact hpdisj (hsubE h2) (ihT h1)
        · exact ihTE h1 h2
      · intro x hx1 hx2
        rcases List.mem_append.mp hx1 with h1 | h1 <;>
          rcases List.mem_append.mp hx2 with h2 | h2
        · exact hdVE h1 h2
        · exact hpdisj (hsubV h1) (ihE h2)
        · exact hpdisj (hsubE h2) (ihV h1)
        · exact ihVE h1 h2

/-- C7: in every bundle `data` writes, the labels of every split are derived
from the stored file paths: a label is 1 exactly when the substring
`"present"` occurs in the path, and 0 otherwise. -/
theorem labels_iff_present (s : ℕ → ℕ) (manifest : Manifest) (train_size : ℕ)
    (val_size : Option ℕ) (test_size : Option ℤ) (b : Bundle)
    (h : data s manifest train_size val_size test_size = Except.ok b) :
    b.y_train = b.x_train.map label ∧
    (∀ xv yv, b.x_val = some xv → b.y_val = some yv → yv = xv.map label) ∧
    b.y_test = b.x_test.map label ∧
    ∀ f : String,
      (label f = 1 ↔ containsChars "present".toList f.toList = true) ∧
      (label f = 0 ↔ containsChars "present".toList f.toList = false) := by
  obtain ⟨_, _, _, st, c, stv, -, -, -, -, -, hb⟩ :=
    data_ok_destruct s manifest train_size val_size test_size b h
  subst hb
  refine ⟨rfl, ?_, rfl, ?_⟩
  · intro xv yv hxv hyv
    by_cases hv : valPosOf val_size
    · simp only [assembleBundle, hv, if_true] at hxv hyv
      rw [hxv] at hyv
      exact (Option.some.inj hyv).symm
    · simp only [assembleBundle, hv, if_false, Bool.false_eq_true] at hyv
      exact Option.noConfusion hyv
  · intro f
    unfold label
    by_cases hc : containsChars "present".toList f.toList <;> simp [hc]

/-- C7 (witness): a successful concrete run of `data` (three files per leaf
pool, so every draw is non-empty), with the label property instantiated at
its bundle. -/
theorem labels_iff_present_witness :
    data (fun _ => 0)
      [("a", [(3, [("present", ["present_1", "present_2", "present_3"]),
                   ("absent", ["absent_1", "absent_2", "absent_3"])])])]
      2 (some 2) none =
      Except.ok {
        x_train := ["present_3", "absent_3"], y_train := [1, 0],
        x_val := some ["present_2", "absent_2"], y_val := some [1, 0],
        x_test := ["present_1", "absent_1"], y_test := [1, 0],
        set_size_vec_train := [3, 3], set_size_vec_val := some [3, 3],
        set_size_vec_test := [3, 3],
        set_sizes_by_stim_stype := [("a", [3])],
        stim_type_vec_train := ["a", "a", "a", "a"],
        stim_type_vec_val := some ["a", "a"],
        stim_type_vec_test := [] } ∧
    (([1, 0] : List ℕ) = ["present_3", "absent_3"].map label ∧
     (∀ xv yv, some ["present_2", "absent_2"] = some xv →
        some ([1, 0] : List ℕ) = some yv → yv = xv.map label) ∧
     (([1, 0] : List ℕ) = ["present_1", "absent_1"].map label) ∧
     ∀ f : String,
       (label f = 1 ↔ containsChars "present".toList f.toList = true) ∧
       (label f = 0 ↔ containsChars "present".toList f.toList = false)) := by
  have hrun : data (fun _ => 0)
      [("a", [(3, [("present", ["present_1", "present_2", "present_3"]),
                   ("absent", ["absent_1", "absent_2", "absent_3"])])])]
      2 (some 2) none =
      Except.ok {
        x_train := ["present_3", "absent_3"], y_train := [1, 0],
        x_val := some ["present_2", "absent_2"], y_val := some [1, 0],
        x_test := ["present_1", "absent_1"], y_test := [1, 0],
        set_size_vec_train := [3, 3], set_size_vec_val := some [3, 3],
        set_size_vec_test := [3, 3],
        set_sizes_by_stim_stype := [("a", [3])],
        stim_type_vec_train := ["a", "a", "a", "a"],
        stim_type_vec_val := some ["a", "a"],
        stim_type_vec_test := [] } := by decide
  exact ⟨hrun, labels_iff_present _ _ _ _ _ _ hrun⟩

/-- C2 (code_bug evaluation): on a concrete manifest with a non-empty test
remainder, the bundle has `stim_type_vec_train` of length 4 against
`x_train` of length 2 and `stim_type_vec_test` of length 0 against `x_test`
of length 2 — the test draw's stimulus-type tags are appended to the train
vector (data.py line 231) and the test vector is never extended.  The
set-size vectors are parallel as claimed. -/
theorem stim_type_vec_not_parallel :
    (data (fun _ => 0)
        [("a", [(3, [("present", ["present_1", "present_2", "present_3"]),
                     ("absent", ["absent_1", "absent_2", "absent_3"])])])]
        2 (some 2) none).map
      (fun b => (b.x_train.length, b.stim_type_vec_train.length,
                 b.x_test.length, b.stim_type_vec_test.length,
                 b.set_size_vec_train.length, b.set_size_vec_test.length)) =
    Except.ok (2, 4, 2, 0, 2, 2) := by decide

/-- C3 (code_bug evaluation): with `val_size` unset (either `None` or `0`),
`data` never reaches the write: the dictionary build reads the unbound local
`stim_type_vec_val` and dies with the `UnboundLocalError`/`NameError`
instead of producing the documented bundle with `x_val = None`,
`y_val = None`. -/
theorem data_val_unset_name_error :
    data (fun _ => 0)
      [("a", [(4, [("present", ["present_a1", "present_a2"]),
                   ("absent", ["absent_a1", "absent_a2"])])]),
       ("b", [(4, [("present", ["present_b1", "present_b2"]),
                   ("absent", ["absent_b1", "absent_b2"])])])]
      4 none none =
      Except.error "NameError: local variable stim_type_vec_val referenced before assignment" ∧
    data (fun _ => 0)
      [("a", [(4, [("present", ["present_a1", "present_a2"]),
                   ("absent", ["absent_a1", "absent_a2"])])]),
       ("b", [(4, [("present", ["present_b1", "present_b2"]),
                   ("absent", ["absent_b1", "absent_b2"])])])]
      4 (some 0) none =
      Except.error "NameError: local variable stim_type_vec_val referenced before assignment" := by
  constructor <;> decide

/-- C9 (as amended): the partitioner has no seed parameter; it is a
deterministic function of the manifest, the size arguments and the hidden
pseudo-random stream it consumes, and it reads only the stream prefix of
one value per leaf-pool element (`streamUse`).  Any two runs whose streams
agree on that prefix produce the identical result. -/
theorem data_stream_determinism (s1 s2 : ℕ → ℕ) (manifest : Manifest)
    (train_size : ℕ) (val_size : Option ℕ) (test_size : Option ℤ)
    (h : ∀ i, i < streamUse manifest → s1 i = s2 i) :
    data s1 manifest train_size val_size test_size =
      data s2 manifest train_size val_size test_size := by
  simp only [data]
  refine bind_congr_ok (fun trainPT _ => ?_)
  refine bind_congr_ok (fun valPT _ => ?_)
  refine bind_congr_ok (fun testPT _ => ?_)
  have hfold := manifestFold_spec s1 s2 (valPosOf val_size) test_size trainPT valPT testPT
    manifest (initSt (valPosOf val_size)) 0 (fun i _ h2 => h i (by omega))
  rw [hfold]

/-- C9 (witness): two concrete streams that agree on the consumed prefix but
differ beyond it give identical bundles. -/
theorem data_stream_determinism_witness :
    (∀ i, i < streamUse
        [("a", [(3, [("present", ["present_1", "present_2", "present_3"]),
                     ("absent", ["absent_1", "absent_2", "absent_3"])])])] →
      (fun _ => 0) i = (fun i => if i < 6 then 0 else 7) i) ∧
    data (fun _ => 0)
        [("a", [(3, [("present", ["present_1", "present_2", "present_3"]),
                     ("absent", ["absent_1", "absent_2", "absent_3"])])])]
        2 (some 2) none =
      data (fun i => if i < 6 then 0 else 7)
        [("a", [(3, [("present", ["present_1", "present_2", "present_3"]),
                     ("absent", ["absent_1", "absent_2", "absent_3"])])])]
        2 (some 2) none :=
  ⟨by decide,
   data_stream_determinism (fun _ => 0) (fun i => if i < 6 then 0 else 7)
     [("a", [(3, [("present", ["present_1", "present_2", "present_3"]),
                  ("absent", ["absent_1", "absent_2", "absent_3"])])])]
     2 (some 2) none (by decide)⟩

/-- C9 (counterexample): with identical manifest and size arguments, two
runs drawing different values from the hidden global random stream produce
different bundles — the partitioning function has no seed parameter, so its
declared inputs do not determine the output. -/
theorem data_differs_across_streams :
    data (fun _ => 0)
        [("a", [(3, [("present", ["present_1", "present_2", "present_3"]),
                     ("absent", ["absent_1", "absent_2", "absent_3"])])])]
        2 (some 2) none ≠
      data (fun _ => 1)
        [("a", [(3, [("present", ["present_1", "present_2", "present_3"]),
                     ("absent", ["absent_1", "absent_2", "absent_3"])])])]
        2 (some 2) none := by decide

/-- Exact-exhaustion and zero-train runs die instead of succeeding: with
`test_size` unset and train plus val consuming a whole leaf pool, the
remainder-mode index list is empty, and with `train_size` zero the train
index list is empty; in both cases `np.asarray` of the empty list is
float64-typed and indexing the filename array raises `IndexError`
(`data.py` lines 206-209 and 226-228). -/
theorem data_empty_index_error :
    data (fun _ => 0)
      [("a", [(3, [("present", ["present_1", "present_2"]),
                   ("absent", ["absent_1", "absent_2"])])])]
      2 (some 2) none =
      Except.error
        "IndexError: arrays used as indices must be of integer (or boolean) type" ∧
    data (fun _ => 0)
      [("a", [(3, [("present", ["present_1", "present_2"]),
                   ("absent", ["absent_1", "absent_2"])])])]
      0 (some 2) none =
      Except.error
        "IndexError: arrays used as indices must be of integer (or boolean) type" := by
  constructor <;> decide

/-- C1 (as amended to runs the code completes): for every manifest and
every positive `train_size`, positive `val_size`, and `test_size`
satisfying the whole-number divisibility requirement at every level, with
the two presence conditions per set size, no leaf pool oversubscribed, and
— in remainder mode (`test_size` unset) — at least one filename left over
in every leaf pool (numpy raises `IndexError` on the empty float64 index
array otherwise), the partitioner succeeds and the bundle has exactly
`train_size` training paths and exactly `val_size` validation paths, and
per stimulus-type/set-size/presence leaf the number of samples drawn into
each split equals the computed per-leaf count (`leafRel` against
`leafSpecs`).  (The unamended claim also covers `val_size` unset, where no
bundle is produced at all — see the counterexample.) -/
theorem data_exact_counts (s : ℕ → ℕ) (m : Manifest) (train_size v : ℕ)
    (test_size : Option ℤ)
    (hm : m ≠ []) (htr : 0 < train_size) (hv : 0 < v)
    (hdt : m.length ∣ train_size)
    (hdv : m.length ∣ v)
    (hts : test_size = none ∨
      ∃ tv : ℤ, test_size = some tv ∧ 0 < tv ∧ (m.length : ℤ) ∣ tv)
    (hpres2 : ∀ t ∈ m, ∀ ss ∈ t.2, ss.2.length = 2)
    (H : ∀ t ∈ m, t.2 ≠ [] ∧
      (t.2.length * 2) ∣ (train_size / m.length) ∧
      (t.2.length * 2) ∣ (v / m.length) ∧
      (∀ tv : ℤ, test_size = some tv → 0 < tv →
        ((t.2.length * 2 : ℕ) : ℤ) ∣ (tv / (m.length : ℤ))) ∧
      (∀ ss ∈ t.2, ∀ pe ∈ ss.2,
        train_size / m.length / (t.2.length * 2) + v / m.length / (t.2.length * 2) +
          testPerLeaf test_size (testPTOf test_size m.length) (t.2.length * 2) ≤
          pe.2.length ∧
        (test_size = none →
          train_size / m.length / (t.2.length * 2) + v / m.length / (t.2.length * 2) <
            pe.2.length))) :
    ∃ (b : Bundle) (parts : List LeafOut),
      data s m train_size (some v) test_size = Except.ok b ∧
      List.Forall₂ (fun lo (spec : ℕ × ℕ × ℤ × List String) =>
        leafRel spec.1 spec.2.1 spec.2.2.1 lo spec.2.2.2)
        parts (leafSpecs true test_size (train_size / m.length) (v / m.length)
          (testPTOf test_size m.length) m) ∧
      b.x_train = (parts.map (·.trainL)).join ∧
      b.x_test = (parts.map (·.testL)).join ∧
      b.x_train.length = train_size ∧
      ∃ xv : List String, b.x_val = some xv ∧
        xv = (parts.map (·.valL)).join ∧ xv.length = v := by
  obtain ⟨b, parts, hok, hfa, hxt, hxv, hxe⟩ :=
    data_build s m train_size v test_size hm htr hv hdt hdv hts H
  refine ⟨b, parts, hok, hfa, hxt, hxe, ?_, ?_⟩
  · rw [hxt,
      join_length_of_forall₂ (fun lo => lo.trainL) (fun spec => spec.1)
        (hfa.imp (fun a b hab => hab.1)),
      sum_leafSpecs_proj true test_size (train_size / m.length) (v / m.length)
        (testPTOf test_size m.length) (fun spec => spec.1)
        (fun n => train_size / m.length / n) (fun n l => rfl) m,
      sum_type_totals (train_size / m.length) (fun n => train_size / m.length / n) m hpres2
        (fun t ht => Nat.mul_div_cancel' (H t ht).2.1),
      Nat.mul_div_cancel' hdt]
  · refine ⟨(parts.map (·.valL)).join, hxv, rfl, ?_⟩
    rw [join_length_of_forall₂ (fun lo => lo.valL) (fun spec => spec.2.1)
        (hfa.imp (fun a b hab => hab.2.1)),
      sum_leafSpecs_proj true test_size (train_size / m.length) (v / m.length)
        (testPTOf test_size m.length) (fun spec => spec.2.1)
        (fun n => v / m.length / n) (fun n l => by simp) m,
      sum_type_totals (v / m.length) (fun n => v / m.length / n) m hpres2
        (fun t ht => Nat.mul_div_cancel' (H t ht).2.2.1),
      Nat.mul_div_cancel' hdv]

/-- C1 (witness): on a concrete valid instance the hypotheses hold and the
bundle has the exact split sizes. -/
theorem data_exact_counts_witness :
    ((0:ℕ) < 2 ∧ (1 ∣ 2) ∧ ∀ t ∈ wManifest, ∀ ss ∈ t.2, ss.2.length = 2) ∧
    ∃ b : Bundle, data (fun _ => 0) wManifest 2 (some 2) (some 2) = Except.ok b ∧
      b.x_train.length = 2 ∧ ∃ xv, b.x_val = some xv ∧ xv.length = 2 := by
  refine ⟨⟨by decide, by decide, by decide⟩, ?_⟩
  obtain ⟨b, parts, hok, hfa, hxt, hxe, hlen, xv, hxv, hxvj, hxvlen⟩ :=
    data_exact_counts (fun _ => 0) wManifest 2 2 (some 2)
      (by decide) (by decide) (by decide) (by decide) (by decide)
      (Or.inr ⟨2, rfl, by decide, by decide⟩)
      (by decide)
      (by
        intro t ht
        simp only [wManifest, List.mem_singleton] at ht
        subst ht
        refine ⟨by decide, by decide, by decide, ?_, by decide⟩
        intro tv htv hpos
        cases htv
        decide)
  exact ⟨b, hok, hlen, xv, hxv, hxvlen⟩

/-- C1 (counterexample to the unamended claim): with `val_size` unset,
`data` produces no bundle at all — it dies reading the unbound local
`stim_type_vec_val` — so the claimed sentinel bundle with exact counts does
not exist in that branch. -/
theorem data_exact_counts_val_unset_no_bundle :
    data (fun _ => 0)
      [("stim", [(1, [("present", ["present_x1", "present_x2"]),
                      ("absent", ["absent_x1", "absent_x2"])])])]
      2 none none =
      Except.error
        "NameError: local variable stim_type_vec_val referenced before assignment" := by
  decide

/-- C8: for every manifest whose filenames are distinct across all leaf
pools and every valid split request (validation split requested and
positive, positive train size, divisibility satisfied, no pool
oversubscribed, and a non-empty remainder per leaf in remainder mode — the
conditions under which the run completes rather than dying on an empty
index array), the three splits of the resulting bundle are pairwise
disjoint: each leaf is sampled by partitioning a permutation of its pool,
so no filename lands in more than one split. -/
theorem splits_disjoint (s : ℕ → ℕ) (m : Manifest) (train_size v : ℕ)
    (test_size : Option ℤ)
    (hm : m ≠ []) (htr : 0 < train_size) (hv : 0 < v)
    (hdt : m.length ∣ train_size)
    (hdv : m.length ∣ v)
    (hts : test_size = none ∨
      ∃ tv : ℤ, test_size = some tv ∧ 0 < tv ∧ (m.length : ℤ) ∣ tv)
    (H : ∀ t ∈ m, t.2 ≠ [] ∧
      (t.2.length * 2) ∣ (train_size / m.length) ∧
      (t.2.length * 2) ∣ (v / m.length) ∧
      (∀ tv : ℤ, test_size = some tv → 0 < tv →
        ((t.2.length * 2 : ℕ) : ℤ) ∣ (tv / (m.length : ℤ))) ∧
      (∀ ss ∈ t.2, ∀ pe ∈ ss.2,
        train_size / m.length / (t.2.length * 2) + v / m.length / (t.2.length * 2) +
          testPerLeaf test_size (testPTOf test_size m.length) (t.2.length * 2) ≤
          pe.2.length ∧
        (test_size = none →
          train_size / m.length / (t.2.length * 2) + v / m.length / (t.2.length * 2) <
            pe.2.length)))
    (hnd : (poolsOf m).join.Nodup) :
    ∃ (b : Bundle) (xv : List String),
      data s m train_size (some v) test_size = Except.ok b ∧
      b.x_val = some xv ∧
      List.Disjoint b.x_train xv ∧
      List.Disjoint b.x_train b.x_test ∧
      List.Disjoint xv b.x_test := by
  obtain ⟨b, parts, hok, hfa, hxt, hxv, hxe⟩ :=
    data_build s m train_size v test_size hm htr hv hdt hdv hts H
  have hfa2 : List.Forall₂ (fun lo pool => ∃ rest : List String,
      (lo.trainL ++ (lo.valL ++ (lo.testL ++ rest))).Perm pool) parts (poolsOf m) := by
    rw [← leafSpecs_pools true test_size (train_size / m.length) (v / m.length)
      (testPTOf test_size m.length) m]
    exact List.forall₂_map_right_iff.mpr (hfa.imp (fun a b hab => hab.2.2.2.2))
  obtain ⟨-, hTV, hTE, hVE⟩ := splits_of_decomp parts (poolsOf m) hfa2 hnd
  refine ⟨b, (parts.map (·.valL)).join, hok, hxv, ?_, ?_, ?_⟩
  · rw [hxt]
    exact hTV
  · rw [hxt, hxe]
    exact hTE
  · rw [hxe]
    exact hVE

/-- C8 (witness): on a concrete manifest with globally distinct filenames
the three splits of the resulting bundle are pairwise disjoint. -/
theorem splits_disjoint_witness :
    (poolsOf wManifest).join.Nodup ∧
    ∃ (b : Bundle) (xv : List String),
      data (fun _ => 0) wManifest 2 (some 2) (some 2) = Except.ok b ∧
      b.x_val = some xv ∧
      List.Disjoint b.x_train xv ∧
      List.Disjoint b.x_train b.x_test ∧
      List.Disjoint xv b.x_test := by
  refine ⟨by decide, ?_⟩
  exact splits_disjoint (fun _ => 0) wManifest 2 2 (some 2)
    (by decide) (by decide) (by decide) (by decide) (by decide)
    (Or.inr ⟨2, rfl, by decide, by decide⟩)
    (by
      intro t ht
      simp only [wManifest, List.mem_singleton] at ht
      subst ht
      refine ⟨by decide, by decide, by decide, ?_, by decide⟩
      intro tv htv hpos
      cases htv
      decide)
    (by decide)

end SearchNets
